import Mathlib

/-!
Verification of the `feed_generators` package (himalalps/rss-feeds).

The Python source is shallowly embedded below: every `def` mirrors a function
(or a runtime primitive it calls) from `src/feed_generators/`.  Machine-level
concerns are made explicit: CPython's salted string hash is modelled by the
SipHash-1-3 core keyed by the per-process secret, fallible operations return
`Option`, and `datetime` values are calendar triples tagged (implicitly) UTC.
-/

/-- ASCII whitespace class as matched by `str.strip` and by `\s` in the
regexes `strptime` compiles: space, tab, newline, carriage return, vertical
tab, form feed. -/
def isWsp (c : Char) : Bool :=
  c.toNat = 32 || c.toNat = 9 || c.toNat = 10 || c.toNat = 13 ||
  c.toNat = 11 || c.toNat = 12

/-- ASCII lowercasing, the fragment of `str.lower` / `re.IGNORECASE` relevant
to month names (which are pure ASCII). -/
def asciiLower (c : Char) : Char :=
  if 65 ≤ c.toNat ∧ c.toNat ≤ 90 then Char.ofNat (c.toNat + 32) else c

def isDigitC (c : Char) : Bool := 48 ≤ c.toNat && c.toNat ≤ 57

def digitVal (c : Char) : Nat := c.toNat - 48

/-- Python `str.strip()` on a character list. -/
def pyStrip (l : List Char) : List Char :=
  ((l.dropWhile isWsp).reverse.dropWhile isWsp).reverse

/-- A `datetime` value as produced in this code base: a UTC calendar day
(the time-of-day component is always midnight in every produced value). -/
structure PDate where
  year : Nat
  month : Nat
  day : Nat
deriving DecidableEq, Repr

/-- `datetime` comparison restricted to the midnight-UTC values above:
lexicographic on (year, month, day). -/
def dateLe (a b : PDate) : Bool :=
  (a.year < b.year) ||
  (a.year = b.year && (a.month < b.month ||
    (a.month = b.month && a.day ≤ b.day)))

def isLeap (y : Nat) : Bool :=
  y % 4 = 0 && (y % 100 ≠ 0 || y % 400 = 0)

def daysInMonth (y m : Nat) : Nat :=
  if m = 1 then 31 else if m = 2 then (if isLeap y then 29 else 28)
  else if m = 3 then 31 else if m = 4 then 30 else if m = 5 then 31
  else if m = 6 then 30 else if m = 7 then 31 else if m = 8 then 31
  else if m = 9 then 30 else if m = 10 then 31 else if m = 11 then 30
  else 31

/-- The calendar successor of a day (`datetime + timedelta(days=1)`). -/
def nextDay (d : PDate) : PDate :=
  if d.day < daysInMonth d.year d.month then ⟨d.year, d.month, d.day + 1⟩
  else if d.month < 12 then ⟨d.year, d.month + 1, 1⟩
  else ⟨d.year + 1, 1, 1⟩

/-- `datetime + timedelta(days=n)`. -/
def addDays (d : PDate) (n : Nat) : PDate :=
  match n with
  | 0 => d
  | n + 1 => addDays (nextDay d) n

/-- `datetime(2023, 1, 1, 0, 0, 0, tzinfo=pytz.UTC)` from
`stable_fallback_date`. -/
def epoch2023 : PDate := ⟨2023, 1, 1⟩

/-! ## `strptime`: the ten formats tried by `parse_date`

`datetime.strptime(data, fmt)` compiles `fmt` to a regex (`IGNORECASE`,
whitespace in the format becoming `\s+`, `%d` becoming
`3[01]|[12]\d|0[1-9]|[1-9]`, `%m` becoming `1[0-2]|0[1-9]|[1-9]`, `%Y`
becoming `\d\d\d\d`, `%b`/`%B` an alternation of month names), requires the
match to consume the whole string, and then builds the `datetime`, which
validates the day against the month length (default year 1900).  The
committed (non-backtracking) parsers below are equivalent to the regexes for
these ten formats because no token that can follow a numeric token matches a
digit, and no two month names are prefixes of one another. -/
/-- A month-name table: lowered name (as characters) with its month number. -/
abbrev MonthTable := List (List Char × Nat)

def monthsAbbr : MonthTable :=
  [("jan".toList, 1), ("feb".toList, 2), ("mar".toList, 3), ("apr".toList, 4),
   ("may".toList, 5), ("jun".toList, 6), ("jul".toList, 7), ("aug".toList, 8),
   ("sep".toList, 9), ("oct".toList, 10), ("nov".toList, 11), ("dec".toList, 12)]

def monthsFull : MonthTable :=
  [("january".toList, 1), ("february".toList, 2), ("march".toList, 3),
   ("april".toList, 4), ("may".toList, 5), ("june".toList, 6),
   ("july".toList, 7), ("august".toList, 8), ("september".toList, 9),
   ("october".toList, 10), ("november".toList, 11), ("december".toList, 12)]

/-- Match one month name from the table case-insensitively (`%b` / `%B`). -/
def parseName (tbl : MonthTable) (s : List Char) : Option (Nat × List Char) :=
  match tbl with
  | [] => none
  | (nm, m) :: rest =>
    if (s.take nm.length).map asciiLower = nm then some (m, s.drop nm.length)
    else parseName rest s

/-- `\s+` (greedy; safe because no following token matches whitespace). -/
def parseWsp (s : List Char) : Option (List Char) :=
  match s with
  | c :: rest => if isWsp c then some (rest.dropWhile isWsp) else none
  | [] => none

/-- `%d` as the regex `3[01]|[12]\d|0[1-9]|[1-9]` (alternatives in order). -/
def parseDay (s : List Char) : Option (Nat × List Char) :=
  match s with
  | c1 :: c2 :: rest =>
    if c1 = '3' && (c2 = '0' || c2 = '1') then some (30 + digitVal c2, rest)
    else if (c1 = '1' || c1 = '2') && isDigitC c2 then
      some (digitVal c1 * 10 + digitVal c2, rest)
    else if c1 = '0' && (49 ≤ c2.toNat && c2.toNat ≤ 57) then
      some (digitVal c2, rest)
    else if 49 ≤ c1.toNat && c1.toNat ≤ 57 then some (digitVal c1, c2 :: rest)
    else none
  | [c1] =>
    if 49 ≤ c1.toNat && c1.toNat ≤ 57 then some (digitVal c1, []) else none
  | [] => none

/-- `%m` as the regex `1[0-2]|0[1-9]|[1-9]`. -/
def parseMonthNum (s : List Char) : Option (Nat × List Char) :=
  match s with
  | c1 :: c2 :: rest =>
    if c1 = '1' && (c2 = '0' || c2 = '1' || c2 = '2') then
      some (10 + digitVal c2, rest)
    else if c1 = '0' && (49 ≤ c2.toNat && c2.toNat ≤ 57) then
      some (digitVal c2, rest)
    else if 49 ≤ c1.toNat && c1.toNat ≤ 57 then some (digitVal c1, c2 :: rest)
    else none
  | [c1] =>
    if 49 ≤ c1.toNat && c1.toNat ≤ 57 then some (digitVal c1, []) else none
  | [] => none

/-- `%Y` as the regex `\d\d\d\d`. -/
def parseYear (s : List Char) : Option (Nat × List Char) :=
  match s with
  | c1 :: c2 :: c3 :: c4 :: rest =>
    if isDigitC c1 && isDigitC c2 && isDigitC c3 && isDigitC c4 then
      some (digitVal c1 * 1000 + digitVal c2 * 100 + digitVal c3 * 10 +
            digitVal c4, rest)
    else none
  | _ => none

/-- A literal character in the format string. -/
def parseLit (c : Char) (s : List Char) : Option (List Char) :=
  match s with
  | c1 :: rest => if c1 = c then some rest else none
  | [] => none

/-- The fields `strptime` extracts for these formats; `year = none` for the
two yearless formats (strptime then defaults the year to 1900). -/
structure SField where
  month : Nat
  day : Nat
  year : Option Nat
deriving DecidableEq, Repr

/-- `datetime.__new__` validation performed at the end of `strptime`:
the day must exist in the month of the (default 1900) year, and the year
must be at least `MINYEAR = 1`. -/
def mkValid (m d : Nat) (y : Option Nat) : Option SField :=
  if 1 ≤ y.getD 1900 ∧ 1 ≤ d ∧ d ≤ daysInMonth (y.getD 1900) m then
    some ⟨m, d, y⟩
  else none

/-- Shared prefix of the month-name formats: month name, whitespace, day. -/
def pMD (tbl : MonthTable) (s : List Char) : Option (Nat × Nat × List Char) :=
  (parseName tbl s).bind fun mr =>
  (parseWsp mr.2).bind fun r2 =>
  (parseDay r2).map fun dr => (mr.1, dr.1, dr.2)

/-- `"%b %d"` / `"%B %d"`. -/
def stMDName (tbl : MonthTable) (s : List Char) : Option SField :=
  (pMD tbl s).bind fun (m, d, r) =>
  if r = [] then mkValid m d none else none

/-- `"%b %d, %Y"` / `"%B %d, %Y"`. -/
def stMDCommaY (tbl : MonthTable) (s : List Char) : Option SField :=
  (pMD tbl s).bind fun (m, d, r) =>
  (parseLit ',' r).bind fun r2 =>
  (parseWsp r2).bind fun r3 =>
  (parseYear r3).bind fun (y, r4) =>
  if r4 = [] then mkValid m d (some y) else none

/-- `"%b %d %Y"` / `"%B %d %Y"`. -/
def stMDSpaceY (tbl : MonthTable) (s : List Char) : Option SField :=
  (pMD tbl s).bind fun (m, d, r) =>
  (parseWsp r).bind fun r2 =>
  (parseYear r2).bind fun (y, r3) =>
  if r3 = [] then mkValid m d (some y) else none

/-- `"%Y-%m-%d"`. -/
def stIso (s : List Char) : Option SField :=
  (parseYear s).bind fun (y, r1) =>
  (parseLit '-' r1).bind fun r2 =>
  (parseMonthNum r2).bind fun (m, r3) =>
  (parseLit '-' r3).bind fun r4 =>
  (parseDay r4).bind fun (d, r5) =>
  if r5 = [] then mkValid m d (some y) else none

/-- `"%m/%d/%Y"`. -/
def stSlash (s : List Char) : Option SField :=
  (parseMonthNum s).bind fun (m, r1) =>
  (parseLit '/' r1).bind fun r2 =>
  (parseDay r2).bind fun (d, r3) =>
  (parseLit '/' r3).bind fun r4 =>
  (parseYear r4).bind fun (y, r5) =>
  if r5 = [] then mkValid m d (some y) else none

/-- `"%d %b %Y"` / `"%d %B %Y"`. -/
def stDMY (tbl : MonthTable) (s : List Char) : Option SField :=
  (parseDay s).bind fun (d, r1) =>
  (parseWsp r1).bind fun r2 =>
  (parseName tbl r2).bind fun (m, r3) =>
  (parseWsp r3).bind fun r4 =>
  (parseYear r4).bind fun (y, r5) =>
  if r5 = [] then mkValid m d (some y) else none

/-- The ten formats of `parse_date`, in source order. -/
inductive Fmt where
  | bd | bigBd | bdY | bigBdY | iso | mdy | dbY | dBigBY | bdY2 | bigBdY2
deriving DecidableEq, Repr

/-- `datetime.strptime(s, fmt)`, returning the extracted fields or `none`
where Python raises `ValueError`. -/
def strptimeF : Fmt → List Char → Option SField
  | .bd => stMDName monthsAbbr
  | .bigBd => stMDName monthsFull
  | .bdY => stMDCommaY monthsAbbr
  | .bigBdY => stMDCommaY monthsFull
  | .iso => stIso
  | .mdy => stSlash
  | .dbY => stDMY monthsAbbr
  | .dBigBY => stDMY monthsFull
  | .bdY2 => stMDSpaceY monthsAbbr
  | .bigBdY2 => stMDSpaceY monthsFull

/-- The `date_formats` list of `parse_date`, in source order. -/
def formats : List Fmt :=
  [.bd, .bigBd, .bdY, .bigBdY, .iso, .mdy, .dbY, .dBigBY, .bdY2, .bigBdY2]

/-- Whether the format string contains `%Y` (decides the
`date.replace(year=current_year)` step). -/
def hasYearFmt : Fmt → Bool
  | .bd => false
  | .bigBd => false
  | _ => true

/-- The loop of `parse_date`: first format whose `strptime` succeeds wins;
formats without `%Y` get the current year substituted; the result is tagged
UTC (our `PDate` carries no zone, all values being UTC). -/
def tryFormats (cy : Nat) : List Fmt → List Char → Option PDate
  | [], _ => none
  | f :: fs, s =>
    match strptimeF f s with
    | some r =>
      some ⟨if hasYearFmt f then r.year.getD 1900 else cy, r.month, r.day⟩
    | none => tryFormats cy fs s

/-- `utils.parse_date`.  `cy` is `datetime.now().year`; the input is `None`
or a string (Python falsiness of `None`/`""` yields an early `None`). -/
def parse_date (cy : Nat) (dateText : Option String) : Option PDate :=
  match dateText with
  | none => none
  | some t =>
    if t = "" then none
    else tryFormats cy formats (pyStrip t.toList)

/-! ## Article dictionaries and `validate_article` -/
/-- The Python values stored in an article dictionary in this code base:
strings, `datetime` values, and `None`. -/
inductive PyVal where
  | vstr (s : String)
  | vdate (d : PDate)
  | vnone
deriving DecidableEq, Repr

/-- Python truthiness of the values above (`""` and `None` are falsy,
every `datetime` and non-empty string is truthy). -/
def truthy : PyVal → Bool
  | .vstr s => s ≠ ""
  | .vdate _ => true
  | .vnone => false

/-- An article record: a Python dict (association list, first key wins). -/
abbrev Article := List (String × PyVal)

/-- `article.get(k)` (returns `none` when the key is absent; an explicit
`None` value is `some .vnone`). -/
def pyGet (a : Article) (k : String) : Option PyVal := a.lookup k

/-- Truthiness of `article.get(k)` (a missing key behaves like `None`). -/
def truthyGet (a : Article) (k : String) : Bool :=
  match pyGet a k with
  | some v => truthy v
  | none => false

/-- Python `str.startswith` (on the underlying characters). -/
def pyStartsWith (s pre : String) : Bool :=
  s.toList.take pre.toList.length = pre.toList

/-- `utils.validate_article`.  Returns `none` where the Python code would
raise a `TypeError`/`AttributeError` (a truthy non-string under `len` or
`.startswith`); otherwise `some` of the returned boolean. -/
def validate_article (article : Article) (require_date : Bool) : Option Bool :=
  match pyGet article "title" with
  | some (.vstr t) =>
    if t = "" || t.length < 5 then some false
    else
      match pyGet article "link" with
      | some (.vstr l) =>
        if l = "" || !pyStartsWith l "http" then some false
        else if require_date && !truthyGet article "date" then some false
        else some true
      | some .vnone => some false
      | none => some false
      | some (.vdate _) => none
  | some .vnone => some false
  | none => some false
  | some (.vdate _) => none

/-- Python `str.strip` at the level of `String`. -/
def pyStripS (s : String) : String := String.mk (pyStrip s.toList)

/-- The validator as claim C2 words it (clearly spec-side, for comparison
with `validate_article`): title present and of length ≥ 5 *after trimming*;
link present and beginning with an *HTTP(S) scheme*; when required, a date
present and non-null. -/
def validate_article_spec (article : Article) (require_date : Bool) : Bool :=
  (match pyGet article "title" with
   | some (.vstr t) => 5 ≤ (pyStripS t).length
   | _ => false) &&
  (match pyGet article "link" with
   | some (.vstr l) => pyStartsWith l "http://" || pyStartsWith l "https://"
   | _ => false) &&
  (!require_date ||
   (match pyGet article "date" with
    | some .vnone => false
    | some _ => true
    | none => false))

/-! ## Python's stable sort and `generate_rss_feed`

`list.sort(key=f, reverse=r)` first applies the key to every element (so a
`KeyError` in the key function fires even for a singleton list), then runs a
stable sort; with `reverse=True` the comparisons are reversed but equal keys
still keep their original order.  Comparing a `datetime` with a string or
with `None` raises `TypeError`; with at least two elements and keys not all
of one comparable kind, Timsort's very first binary-insertion comparison
across the kind boundary raises.  `insort` below is a stable insertion sort,
observably equal to Timsort on lists whose keys are totally preordered. -/
/-- Insert `a` before the first element `b` with `le a b` (stable: a later
element is placed after the equals already present). -/
def insertLe (le : Article → Article → Bool) (a : Article) :
    List Article → List Article
  | [] => [a]
  | b :: bs => if le a b then a :: b :: bs else b :: insertLe le a bs

/-- Stable insertion sort (elements inserted from the right, so each element
goes after the equal elements that precede it in the input). -/
def insort (le : Article → Article → Bool) : List Article → List Article
  | [] => []
  | x :: xs => insertLe le x (insort le xs)

/-- Comparison of two key values of the same kind (`datetime ≤ datetime`,
`str ≤ str`); cross-kind comparisons raise in Python and are excluded by the
guard in `pySortByKey`. -/
def pyCmpLe : PyVal → PyVal → Bool
  | .vdate a, .vdate b => dateLe a b
  | .vstr a, .vstr b => decide (a ≤ b)
  | _, _ => false

/-- The key value `x[field]` that the sort compares (`.vnone` is a dummy for
the missing-key case, which `pySortByKey` rules out before sorting). -/
def keyAt (field : String) (a : Article) : PyVal :=
  (pyGet a field).getD .vnone

/-- The sort order used by `list.sort(key=lambda x: x[field], reverse=rev)`. -/
def sortLe (field : String) (rev : Bool) (a b : Article) : Bool :=
  if rev then pyCmpLe (keyAt field b) (keyAt field a)
  else pyCmpLe (keyAt field a) (keyAt field b)

/-- Whether the key of `a` at `field` is a `datetime` value. -/
def dateKeyed (field : String) (a : Article) : Bool :=
  match pyGet a field with
  | some (.vdate _) => true
  | _ => false

/-- Whether the key of `a` at `field` is a string value. -/
def strKeyed (field : String) (a : Article) : Bool :=
  match pyGet a field with
  | some (.vstr _) => true
  | _ => false

/-- `l.sort(key=lambda x: x[field], reverse=rev)`: `none` models the raised
exception (`KeyError` when a key is missing, `TypeError` when two or more
keys of incomparable kinds are compared). -/
def pySortByKey (field : String) (rev : Bool) (l : List Article) :
    Option (List Article) :=
  if !l.all (fun a => (pyGet a field).isSome) then none
  else if l.length ≤ 1 then some l
  else if l.all (dateKeyed field) || l.all (strKeyed field) then
    some (insort (sortLe field rev) l)
  else none

/-- The parts of the `feed_config` dict that `generate_rss_feed` reads.
`none` models an absent key. -/
structure FeedConfig where
  title : Option String := none
  description : Option String := none
  link : Option String := none
  language : Option String := none
  author : Option String := none
  logo : Option String := none
  subtitle : Option String := none
  sort_reverse : Option Bool := none
  date_field : Option String := none

/-- The dated/dateless test of `generate_rss_feed`:
`a.get(date_field) or a.get("pub_date")` is truthy. -/
def datedP (df : String) (a : Article) : Bool :=
  truthyGet a df || truthyGet a "pub_date"

/-- `actual_date_field`: the configured field if the first dated article has
that key, else `"pub_date"`. -/
def resolvedField (df : String) (withDate : List Article) : String :=
  match withDate with
  | [] => "pub_date"
  | a :: _ => if (pyGet a df).isSome then df else "pub_date"

/-- `utils.generate_rss_feed`, observed as the ordered list of articles whose
entries are emitted (channel metadata does not affect entry order).  `none`
models a raised exception: a missing required config key (`KeyError`), or the
sort raising as in `pySortByKey`. -/
def generate_rss_feed (articles : List Article) (cfg : FeedConfig) :
    Option (List Article) :=
  match cfg.title, cfg.description, cfg.link with
  | some _, some _, some _ =>
    let date_field := cfg.date_field.getD "date"
    let articles_with_date := articles.filter (datedP date_field)
    let articles_without_date := articles.filter fun a =>
      !truthyGet a date_field && !truthyGet a "pub_date"
    let actual_date_field := resolvedField date_field articles_with_date
    let sort_reverse := cfg.sort_reverse.getD true
    (pySortByKey actual_date_field sort_reverse articles_with_date).map
      fun sorted => sorted ++ articles_without_date
  | _, _, _ => none

/-! ## `stable_fallback_date` and CPython's salted string hash

`utils.stable_fallback_date` calls the builtin `hash` on a string.  CPython
(3.11+) hashes a nonempty string by running SipHash-1-3 over its character
data, keyed by the two 64-bit words of the per-process hash secret, which is
randomized at interpreter startup unless `PYTHONHASHSEED` pins it.  The model
below implements that primitive (for one-byte-kind strings, i.e. ASCII and
Latin-1, where the hashed bytes are the character codes) with the key as an
explicit parameter, so that the per-run salting is visible. -/
def mask64 : Nat := 18446744073709551615

def wrap64 (x : Nat) : Nat := x.land mask64

def add64 (a b : Nat) : Nat := wrap64 (a + b)

def rotl64 (x r : Nat) : Nat :=
  wrap64 (x.shiftLeft r) ||| x.shiftRight (64 - r)

/-- The four words of the SipHash state. -/
structure V4 where
  v0 : Nat
  v1 : Nat
  v2 : Nat
  v3 : Nat
deriving Repr

/-- `SINGLE_ROUND` of CPython's `pyhash.c` (two `HALF_ROUND`s). -/
def sipRound (s : V4) : V4 :=
  let v0 := add64 s.v0 s.v1
  let v2 := add64 s.v2 s.v3
  let v1 := (rotl64 s.v1 13).xor v0
  let v3 := (rotl64 s.v3 16).xor v2
  let v0 := rotl64 v0 32
  let v2 := add64 v2 v1
  let v0 := add64 v0 v3
  let v1 := (rotl64 v1 17).xor v2
  let v3 := (rotl64 v3 21).xor v0
  let v2 := rotl64 v2 32
  ⟨v0, v1, v2, v3⟩

/-- Little-endian word from at most eight bytes. -/
def le64 : List Nat → Nat
  | [] => 0
  | b :: bs => b + 256 * le64 bs

/-- The main loop of `siphash13`: consume full eight-byte chunks. -/
def sipChunks (st : V4) : List Nat → V4 × List Nat
  | b0 :: b1 :: b2 :: b3 :: b4 :: b5 :: b6 :: b7 :: rest =>
    let mi := le64 [b0, b1, b2, b3, b4, b5, b6, b7]
    let st1 := sipRound ⟨st.v0, st.v1, st.v2, (st.v3).xor mi⟩
    sipChunks ⟨(st1.v0).xor mi, st1.v1, st1.v2, st1.v3⟩ rest
  | rest => (st, rest)

/-- `siphash13(k0, k1, bytes)` from CPython's `pyhash.c`. -/
def siphash13 (k0 k1 : Nat) (msg : List Nat) : Nat :=
  let b0 := wrap64 (msg.length.shiftLeft 56)
  let st : V4 := ⟨k0.xor 8317987319222330741, k1.xor 7237128888997146477,
                  k0.xor 7816392313619706465, k1.xor 8387220255154660723⟩
  let (st, tail) := sipChunks st msg
  let b := b0 ||| le64 tail
  let st := sipRound ⟨st.v0, st.v1, st.v2, (st.v3).xor b⟩
  let st : V4 := ⟨(st.v0).xor b, st.v1, (st.v2).xor 255, st.v3⟩
  let st := sipRound (sipRound (sipRound st))
  ((st.v0).xor st.v1).xor ((st.v2).xor st.v3)

/-- Python `hash(s)` for a one-byte-kind string `s` under hash secret
`(k0, k1)`: `0` for the empty string, else the SipHash value reinterpreted
as a signed 64-bit integer, with `-1` mapped to `-2`. -/
def pyHashStr (k0 k1 : Nat) (s : String) : Int :=
  if s = "" then 0
  else
    let x := siphash13 k0 k1 (s.toList.map Char.toNat)
    let h : Int := if x < 9223372036854775808 then (x : Int)
                   else (x : Int) - 18446744073709551616
    if h = -1 then -2 else h

/-- `utils.stable_fallback_date`, with the process hash secret `(k0, k1)`
made explicit: `epoch + timedelta(days=abs(hash(identifier)) % 730)`. -/
def stable_fallback_date (k0 k1 : Nat) (identifier : String) : PDate :=
  addDays epoch2023 ((pyHashStr k0 k1 identifier).natAbs % 730)

/-! ## Calendar monotonicity (for distinguishing fallback dates) -/
/-- Strict lexicographic order on calendar days. -/
def dateLtP (a b : PDate) : Prop :=
  a.year < b.year ∨ (a.year = b.year ∧
    (a.month < b.month ∨ (a.month = b.month ∧ a.day < b.day)))

def wArt1 : Article :=
  [("title", .vstr "Alpha entry"), ("link", .vstr "https://e/1"),
   ("description", .vstr "d"), ("date", .vdate ⟨2024, 5, 1⟩)]

def wArt2 : Article :=
  [("title", .vstr "Beta entry"), ("link", .vstr "https://e/2"),
   ("description", .vstr "d"), ("date", .vdate ⟨2025, 1, 2⟩)]

def wArt3 : Article :=
  [("title", .vstr "Gamma entry"), ("link", .vstr "https://e/3"),
   ("description", .vstr "d")]

def wArt4 : Article :=
  [("title", .vstr "Delta entry"), ("link", .vstr "https://e/4"),
   ("description", .vstr "d"), ("date", .vdate ⟨2024, 5, 1⟩)]

def wArts : List Article := [wArt1, wArt2, wArt3, wArt4]

def wCfg : FeedConfig :=
  { title := some "t", description := some "d", link := some "l" }

/-! ## `strptime` format agreement: any two formats matching the same input
extract the same fields, so trying them in order is order-independent on the
extracted values. -/
def isLowerAlpha (c : Char) : Bool := 97 ≤ c.toNat && c.toNat ≤ 122

/-- A well-formed month table: names are nonempty and all lower-case ASCII
letters. -/
def tableOK (t : MonthTable) : Prop :=
  ∀ p ∈ t, p.1 ≠ [] ∧ p.1.all isLowerAlpha = true

/-- Two tables agree on the month number of any shared name. -/
def tablesCross (t1 t2 : MonthTable) : Prop :=
  ∀ p1 ∈ t1, ∀ p2 ∈ t2, p1.1 = p2.1 → p1.2 = p2.2

/-! ## The structured-data scrapers (`anthropic_research_blog.extract_articles`
and the core of `anthropic_eng_blog.parse_engineering_html`)

Both scan the escaped Next.js data blob with
`re.findall(r'\\"publishedOn\\":\\"([^"]+?)\\",\\"slug\\":\{[^}]*?\\"current\\":\\"([^"]+?)\\"', ...)`
and then, per match, `re.search` for title/summary (and label) in the 2000
characters after the slug anchor.  The lazy quantifiers are modelled by
shortest-first scans; `findall` scans left to right without overlap. -/
def startsWithL (pre s : List Char) : Bool := s.take pre.length == pre

/-- Python `needle in hay` (substring test). -/
def containsSub (needle : List Char) : List Char → Bool
  | [] => needle.isEmpty
  | c :: rest => startsWithL needle (c :: rest) || containsSub needle rest

def containsSubS (needle hay : String) : Bool :=
  containsSub needle.toList hay.toList

/-- Python `hay.find(needle)` (first index, `none` for `-1`). -/
def findSub (needle : List Char) : List Char → Option Nat
  | [] => if needle.isEmpty then some 0 else none
  | c :: rest =>
    if startsWithL needle (c :: rest) then some 0
    else (findSub needle rest).map (· + 1)

/-- A lazy (`+?` / `*?`) scan over characters other than `excl`, stopping at
the shortest point where the literal `lit` follows; `allowStop` is false
until the minimum repetition count (one for `+?`) has been consumed.
Returns the captured characters and the rest after `lit`. -/
def lazyScan (lit : List Char) (excl : Char) :
    Bool → List Char → Option (List Char × List Char)
  | allowStop, s =>
    if allowStop && startsWithL lit s then some ([], s.drop lit.length)
    else
      match s with
      | [] => none
      | c :: rest =>
        if c = excl then none
        else (lazyScan lit excl true rest).map fun p => (c :: p.1, p.2)

def litPublishedOn : List Char := "\\\"publishedOn\\\":\\\"".toList

def litCommaSlug : List Char := "\\\",\\\"slug\\\":\x7b".toList

def litCurrent : List Char := "\\\"current\\\":\\\"".toList

def litCloseQuote : List Char := "\\\"".toList

/-- One attempt of the record pattern at the current position: returns the
two captured groups (publishedOn, slug) and the rest of the input after the
match. -/
def matchRecordAt (s : List Char) : Option (List Char × List Char × List Char) :=
  if startsWithL litPublishedOn s then
    (lazyScan litCommaSlug '"' false (s.drop litPublishedOn.length)).bind
      fun (date, s2) =>
    (lazyScan litCurrent '}' true s2).bind fun (_, s3) =>
    (lazyScan litCloseQuote '"' false s3).map fun (slug, s4) =>
    (date, slug, s4)
  else none

/-- `re.findall` for the record pattern: left-to-right, non-overlapping.
`fuel` bounds the scan; every step consumes at least one character, so
`fuel = s.length` is always enough. -/
def findallGo : Nat → List Char → List (List Char × List Char)
  | 0, _ => []
  | _ + 1, [] => []
  | fuel + 1, c :: rest =>
    match matchRecordAt (c :: rest) with
    | some (date, slug, after) => (date, slug) :: findallGo fuel after
    | none => findallGo fuel rest

def findallRecords (s : List Char) : List (List Char × List Char) :=
  findallGo s.length s

/-- The lazy content of `(.*?)(?<!\\)\\"`: consume non-newline characters
until a `\"` preceded by a non-backslash character. `prev` is the character
before the current position (initially the `"` ending the anchor). -/
def lazyContent : Char → List Char → Option (List Char)
  | _, [] => none
  | prev, c :: rest =>
    if prev ≠ '\\' && startsWithL litCloseQuote (c :: rest) then some []
    else if c = '\n' then none
    else (lazyContent c rest).map fun p => c :: p

/-- `re.search(anchor + r'(.*?)(?<!\\)\\"', s)`: try each start position in
order; at an anchor occurrence, take the shortest completing content, else
move on. -/
def searchPat (anchor : List Char) : List Char → Option (List Char)
  | [] => none
  | c :: rest =>
    if startsWithL anchor (c :: rest) then
      match lazyContent '"' ((c :: rest).drop anchor.length) with
      | some cap => some cap
      | none => searchPat anchor rest
    else searchPat anchor rest

def litTitleAnchor : List Char := "\\\"title\\\":\\\"".toList

def litSummaryAnchor : List Char := "\\\"summary\\\":\\\"".toList

def litLabelAnchor : List Char := "\\\"label\\\":\\\"".toList

/-- `re.sub(r"\\(.)", r"\1", s)`: drop a backslash before any non-newline
character (`.` does not match a newline, so a backslash-newline pair is left
alone and scanning resumes at the newline). -/
def unescape : List Char → List Char
  | [] => []
  | ['\\'] => ['\\']
  | '\\' :: c :: rest =>
    if c = '\n' then '\\' :: unescape (c :: rest) else c :: unescape rest
  | c :: rest => c :: unescape rest

def isAsciiAlpha (c : Char) : Bool :=
  (65 ≤ c.toNat && c.toNat ≤ 90) || (97 ≤ c.toNat && c.toNat ≤ 122)

def asciiUpper (c : Char) : Char :=
  if 97 ≤ c.toNat ∧ c.toNat ≤ 122 then Char.ofNat (c.toNat - 32) else c

/-- Python `str.title()` (ASCII fragment): uppercase a letter after a
non-letter, lowercase the rest. -/
def pyTitleGo (prevAlpha : Bool) : List Char → List Char
  | [] => []
  | c :: rest =>
    let al := isAsciiAlpha c
    (if al && !prevAlpha then asciiUpper c
     else if al then asciiLower c else c) :: pyTitleGo al rest

/-- `slug.replace("-", " ").title()`. -/
def slugFallbackTitle (slug : List Char) : List Char :=
  pyTitleGo false (slug.map fun c => if c = '-' then ' ' else c)

/-- The per-match body shared by the two structured-data scrapers: resolve
the slug anchor, search title/summary in the 2000-character window, and
unescape.  Returns `(title, description, section)` or `none` when the slug
anchor is not found (`find` returns `-1`, the loop `continue`s). -/
def sectionFields (script slug : List Char) :
    Option (List Char × List Char × List Char) :=
  (findSub (litCurrent ++ slug ++ litCloseQuote) script).map fun slug_pos =>
    let search_section := (script.drop slug_pos).take 2000
    let title0 :=
      match searchPat litTitleAnchor search_section with
      | some cap => cap
      | none => slugFallbackTitle slug
    let title := if title0 = [] then title0 else unescape title0
    let description0 :=
      match searchPat litSummaryAnchor search_section with
      | some cap => cap
      | none => title
    let description :=
      if description0 = [] then description0 else unescape description0
    (title, description, search_section)

/-- The loop body of `anthropic_research_blog.extract_articles` over the
regex matches (`cy` is the current year used by `parse_date`). -/
def researchBuild (cy : Nat) (script : List Char) :
    List (List Char × List Char) → List Article
  | [] => []
  | (published_date, slug) :: rest =>
    match sectionFields script slug with
    | none => researchBuild cy script rest
    | some (title, description, search_section) =>
      let link := "https://www.anthropic.com/research/" ++ String.mk slug
      let date :=
        match parse_date cy (some (String.mk published_date)) with
        | some d => PyVal.vdate d
        | none => PyVal.vnone
      let category :=
        match searchPat litLabelAnchor search_section with
        | some cap => String.mk cap
        | none => "Research"
      let descr := if description = [] then title else description
      let article : Article :=
        [("title", .vstr (String.mk title)), ("link", .vstr link),
         ("description", .vstr (String.mk descr)), ("date", date),
         ("category", .vstr category)]
      if validate_article article true = some true then
        article :: researchBuild cy script rest
      else researchBuild cy script rest

/-- `anthropic_research_blog.extract_articles` (its final sort is commented
out in the source, so matches are returned in discovery order). -/
def research_extract (cy : Nat) (script : List Char) : List Article :=
  researchBuild cy script (findallRecords script)

/-- The loop body of `anthropic_eng_blog.parse_engineering_html` over the
regex matches; the date comes from `strptime(published_date, "%Y-%m-%d")`
directly and a `ValueError` skips the record. -/
def engBuild (script : List Char) :
    List (List Char × List Char) → List Article
  | [] => []
  | (published_date, slug) :: rest =>
    match sectionFields script slug with
    | none => engBuild script rest
    | some (title, description, _) =>
      match strptimeF .iso published_date with
      | none => engBuild script rest
      | some r =>
        let link := "https://www.anthropic.com/engineering/" ++ String.mk slug
        let date := PyVal.vdate ⟨r.year.getD 1900, r.month, r.day⟩
        let descr := if description = [] then title else description
        let article : Article :=
          [("title", .vstr (String.mk title)), ("link", .vstr link),
           ("description", .vstr (String.mk descr)), ("date", date),
           ("category", .vstr "Engineering")]
        if validate_article article true = some true then
          article :: engBuild script rest
        else engBuild script rest

/-- The core of `anthropic_eng_blog.parse_engineering_html` after the script
tag is found: build the articles, then
`articles.sort(key=lambda x: x["date"], reverse=True)` (`none` would model
the sort raising, which cannot happen because every built article carries a
`datetime` in `"date"`). -/
def eng_core (script : List Char) : Option (List Article) :=
  pySortByKey "date" true (engBuild script (findallRecords script))

/-- The script-tag search of `parse_research_html` /
`parse_engineering_html`: first script whose string is truthy and contains
the given substrings. -/
def findScript (p : String → Bool) : List (Option String) → Option String
  | [] => none
  | none :: rest => findScript p rest
  | some s :: rest => if s ≠ "" && p s then some s else findScript p rest

/-- `parse_research_html` on the list of script strings of the page. -/
def parse_research_html (cy : Nat) (scripts : List (Option String)) :
    List Article :=
  match findScript (fun s => containsSubS "publishedOn" s) scripts with
  | none => []
  | some sc => research_extract cy sc.toList

/-- `parse_engineering_html` on the list of script strings of the page. -/
def parse_engineering_html (scripts : List (Option String)) :
    Option (List Article) :=
  match findScript (fun s => containsSubS "publishedOn" s &&
      containsSubS "engineeringArticle" s) scripts with
  | none => some []
  | some sc => eng_core sc.toList

/-! ## The `thinkingmachines_blog` DOM scraper -/
/-- `str.split()` (whitespace words, no empties), with an accumulator. -/
def splitWsGo : List Char → List Char → List (List Char)
  | acc, [] => if acc.isEmpty then [] else [acc.reverse]
  | acc, c :: rest =>
    if isWsp c then
      if acc.isEmpty then splitWsGo [] rest
      else acc.reverse :: splitWsGo [] rest
    else splitWsGo (c :: acc) rest

/-- `" ".join(s.split())`: collapse whitespace runs. -/
def normWs (s : String) : String :=
  String.intercalate " " ((splitWsGo [] s.toList).map String.mk)

/-- One DOM entry node (`li a.post-item-link`) of the listing page, reduced
to the fields the scraper reads. -/
structure TMItem where
  href : String
  dateText : Option String
  titleSel : Option String
  fullText : String
  authorDate : Option String

/-- `thinkingmachines_blog.extract_title` on such a node. -/
def extract_title_tm (item : TMItem) : Option String :=
  let fromSel :=
    match item.titleSel with
    | some txt =>
      if pyStripS txt ≠ "" then
        let t := normWs txt
        if 5 ≤ t.length then some t else none
      else none
    | none => none
  match fromSel with
  | some t => some t
  | none =>
    let t := normWs item.fullText
    if 5 ≤ t.length then some t else none

/-- The author extraction of the loop body (text before `·`, stripped,
defaulting to the organization name). -/
def tmAuthor (authorDate : Option String) : String :=
  let a0 :=
    match authorDate with
    | some txt =>
      if containsSubS "·" txt then
        pyStripS (String.mk (txt.toList.takeWhile (· ≠ '·')))
      else txt
    | none => ""
  if a0 = "" then "Thinking Machines Lab" else a0

/-- The loop of `thinkingmachines_blog.extract_articles`, threading the
`seen_links` set; `cy` and `(k0, k1)` feed `parse_date` and the fallback
hash. -/
def tmGo (cy k0 k1 : Nat) : List TMItem → List String → List Article
  | [], _ => []
  | item :: rest, seen =>
    if item.href = "" then tmGo cy k0 k1 rest seen
    else
      let link := if pyStartsWith item.href "/" then
          "https://thinkingmachines.ai" ++ item.href else item.href
      if link ∈ seen then tmGo cy k0 k1 rest seen
      else
        let pub_date :=
          match parse_date cy item.dateText with
          | some d => d
          | none => stable_fallback_date k0 k1 link
        let title := (extract_title_tm item).getD "Untitled"
        let author := tmAuthor item.authorDate
        let article : Article :=
          [("title", .vstr title), ("link", .vstr link),
           ("description", .vstr ("by " ++ author)),
           ("pub_date", .vdate pub_date), ("author", .vstr author)]
        if validate_article article false = some true then
          article :: tmGo cy k0 k1 rest (link :: seen)
        else tmGo cy k0 k1 rest (link :: seen)

/-- `thinkingmachines_blog.extract_articles` on the selected entry nodes. -/
def tm_extract (cy k0 k1 : Nat) (items : List TMItem) : List Article :=
  tmGo cy k0 k1 items []

/-- The structured-data scenario blob of claim C5:
`\"publishedOn\":\"2025-01-01\",\"slug\":{\"current\":\"foo\"}` followed
within 2000 characters by `\"title\":\"Hello World\"`. -/
def c5blob : String :=
  "\\\"publishedOn\\\":\\\"2025-01-01\\\",\\\"slug\\\":\x7b\\\"current\\\":\\\"foo\\\"\x7d,\\\"title\\\":\\\"Hello World\\\""

/-- A blob whose record (same slug `foo`) appears twice. -/
def c8blob : String :=
  "\\\"publishedOn\\\":\\\"2025-01-01\\\",\\\"slug\\\":\x7b\\\"current\\\":\\\"foo\\\"\x7d,\\\"title\\\":\\\"Hello World\\\",\\\"publishedOn\\\":\\\"2025-01-01\\\",\\\"slug\\\":\x7b\\\"current\\\":\\\"foo\\\"\x7d,\\\"title\\\":\\\"Hello World\\\""

/-- The `feed_config` built by `anthropic_research_blog.main` (the feed
direction for the research site is ascending: `sort_reverse: False`). -/
def research_feed_config : FeedConfig :=
  { title := some "Anthropic Research",
    description := some "Latest research papers and updates from Anthropic",
    link := some "https://www.anthropic.com/research",
    language := some "en",
    author := some "Anthropic Research Team",
    logo := some "https://www.anthropic.com/images/icons/apple-touch-icon.png",
    subtitle := some "Latest research from Anthropic",
    sort_reverse := some false,
    date_field := some "date" }

/-- Two records in page order with descending dates. -/
def c9blob : String :=
  "\\\"publishedOn\\\":\\\"2025-05-05\\\",\\\"slug\\\":\x7b\\\"current\\\":\\\"aaa\\\"\x7d,\\\"title\\\":\\\"Alpha Post\\\",\\\"publishedOn\\\":\\\"2024-01-01\\\",\\\"slug\\\":\x7b\\\"current\\\":\\\"bbb\\\"\x7d,\\\"title\\\":\\\"Beta Post\\\""

example : parse_date 2024 (some "Nov 7, 2025") = some ⟨2025, 11, 7⟩ := by decide

example : parse_date 2024 (some "Nov 7") = some ⟨2024, 11, 7⟩ := by decide

example : parse_date 2024 (some "2025-11-07") = some ⟨2025, 11, 7⟩ := by decide

example : parse_date 2024 (some "11/07/2025") = some ⟨2025, 11, 7⟩ := by decide

example : parse_date 2024 (some "07 November 2025") = some ⟨2025, 11, 7⟩ := by decide

example : parse_date 2024 (some "  novEMBER 7 2025 ") = some ⟨2025, 11, 7⟩ := by decide

example : parse_date 2024 (some "Feb 30, 2025") = none := by decide

example : parse_date 2024 (some "Feb 29") = none := by decide

example : parse_date 2024 (some "Feb 29, 2024") = some ⟨2024, 2, 29⟩ := by decide

example : parse_date 2024 (some "garbage") = none := by decide

example : parse_date 2024 (some "   ") = none := by decide

example : parse_date 2024 none = none := by decide

example :
    validate_article
      [("title", .vstr "Hello World"), ("link", .vstr "https://a.example/x"),
       ("date", .vdate ⟨2025, 1, 1⟩)] true = some true := by decide

example :
    validate_article [("title", .vstr "hi"), ("link", .vstr "https://a.example/x")]
      false = some false := by decide

example :
    validate_article
      [("title", .vstr "hi   "), ("link", .vstr "https://a.example/x")]
      false = some true := by decide

example : stable_fallback_date 0 0 "x" = stable_fallback_date 0 0 "x" := rfl

/-! ## Properties of the stable sort -/
theorem mem_insertLe {le : Article → Article → Bool} {a c : Article} :
    ∀ {l : List Article}, c ∈ insertLe le a l ↔ c = a ∨ c ∈ l := by
  intro l
  induction l with
  | nil => simp [insertLe]
  | cons b bs ih =>
    simp only [insertLe]
    split
    · simp [or_comm, or_assoc, or_left_comm]
    · simp only [List.mem_cons, ih]
      tauto

theorem mem_insort {le : Article → Article → Bool} {c : Article} :
    ∀ {l : List Article}, c ∈ insort le l ↔ c ∈ l := by
  intro l
  induction l with
  | nil => simp [insort]
  | cons b bs ih => simp [insort, mem_insertLe, ih]

theorem insort_perm (le : Article → Article → Bool) :
    ∀ l : List Article, (insort le l).Perm l := by
  intro l
  induction l with
  | nil => simp [insort]
  | cons b bs ih =>
    have h1 : ∀ (a : Article) (m : List Article),
        (insertLe le a m).Perm (a :: m) := by
      intro a m
      induction m with
      | nil => simp [insertLe]
      | cons x xs ihm =>
        simp only [insertLe]
        split
        · exact List.Perm.refl _
        · exact (List.Perm.cons x ihm).trans (List.Perm.swap a x xs)
    exact ((h1 b (insort le bs)).trans (List.Perm.cons b ih))

theorem pairwise_insertLe {le : Article → Article → Bool} {a : Article} :
    ∀ {l : List Article},
      List.Pairwise (fun x y => le x y = true) l →
      (∀ x, (x = a ∨ x ∈ l) → ∀ y, (y = a ∨ y ∈ l) → le x y = true ∨ le y x = true) →
      (∀ x, (x = a ∨ x ∈ l) → ∀ y, (y = a ∨ y ∈ l) → ∀ z, (z = a ∨ z ∈ l) →
        le x y = true → le y z = true → le x z = true) →
      List.Pairwise (fun x y => le x y = true) (insertLe le a l) := by
  intro l
  induction l with
  | nil =>
    intro _ _ _
    simp [insertLe]
  | cons b bs ih =>
    intro hp htot htr
    rcases List.pairwise_cons.mp hp with ⟨hb, hbs⟩
    simp only [insertLe]
    split
    · rename_i hab
      refine List.pairwise_cons.mpr ⟨?_, hp⟩
      intro c hc
      rcases List.mem_cons.mp hc with rfl | hc
      · exact hab
      · exact htr a (Or.inl rfl) b (Or.inr (by simp)) c (Or.inr (by simp [hc]))
          hab (hb c hc)
    · rename_i hab
      have hba : le b a = true := by
        rcases htot a (Or.inl rfl) b (Or.inr (by simp)) with h | h
        · exact absurd h hab
        · exact h
      refine List.pairwise_cons.mpr ⟨?_, ?_⟩
      · intro c hc
        rcases mem_insertLe.mp hc with rfl | hc
        · exact hba
        · exact hb c hc
      · refine ih hbs ?_ ?_
        · intro x hx y hy
          exact htot x (hx.imp id (fun h => List.mem_cons_of_mem b h))
            y (hy.imp id (fun h => List.mem_cons_of_mem b h))
        · intro x hx y hy z hz
          exact htr x (hx.imp id (fun h => List.mem_cons_of_mem b h))
            y (hy.imp id (fun h => List.mem_cons_of_mem b h))
            z (hz.imp id (fun h => List.mem_cons_of_mem b h))

theorem pairwise_insort {le : Article → Article → Bool} :
    ∀ {l : List Article},
      (∀ x ∈ l, ∀ y ∈ l, le x y = true ∨ le y x = true) →
      (∀ x ∈ l, ∀ y ∈ l, ∀ z ∈ l, le x y = true → le y z = true → le x z = true) →
      List.Pairwise (fun x y => le x y = true) (insort le l) := by
  intro l
  induction l with
  | nil =>
    intro _ _
    simp [insort]
  | cons b bs ih =>
    intro htot htr
    have hmem : ∀ x, x ∈ insort le bs → x ∈ b :: bs := by
      intro x hx
      exact List.mem_cons_of_mem b (mem_insort.mp hx)
    refine pairwise_insertLe ?_ ?_ ?_
    · exact ih
        (fun x hx y hy => htot x (List.mem_cons_of_mem b hx) y (List.mem_cons_of_mem b hy))
        (fun x hx y hy z hz => htr x (List.mem_cons_of_mem b hx)
          y (List.mem_cons_of_mem b hy) z (List.mem_cons_of_mem b hz))
    · intro x hx y hy
      have hx' : x ∈ b :: bs := by
        rcases hx with rfl | hx
        · simp
        · exact hmem x hx
      have hy' : y ∈ b :: bs := by
        rcases hy with rfl | hy
        · simp
        · exact hmem y hy
      exact htot x hx' y hy'
    · intro x hx y hy z hz
      have hx' : x ∈ b :: bs := by
        rcases hx with rfl | hx
        · simp
        · exact hmem x hx
      have hy' : y ∈ b :: bs := by
        rcases hy with rfl | hy
        · simp
        · exact hmem y hy
      have hz' : z ∈ b :: bs := by
        rcases hz with rfl | hz
        · simp
        · exact hmem z hz
      exact htr x hx' y hy' z hz'

theorem filter_insertLe {le : Article → Article → Bool} {p : Article → Bool}
    {a : Article} :
    ∀ {l : List Article},
      (∀ b ∈ l, p a = true → p b = true → le a b = true) →
      (insertLe le a l).filter p =
        (if p a then a :: l.filter p else l.filter p) := by
  intro l
  induction l with
  | nil =>
    intro _
    by_cases hpa : p a = true <;> simp [insertLe, List.filter, hpa]
  | cons b bs ih =>
    intro h
    simp only [insertLe]
    split
    · by_cases hpa : p a = true <;> simp [List.filter_cons, hpa]
    · rename_i hab
      by_cases hpa : p a = true
      · have hpb : p b = false := by
          rcases Bool.eq_false_or_eq_true (p b) with hb | hb
          · exact absurd (h b (by simp) hpa hb) hab
          · exact hb
        have ih' := ih (fun c hc => h c (List.mem_cons_of_mem b hc))
        simp [List.filter_cons, hpb, hpa] at ih' ⊢
        exact ih'
      · have ih' := ih (fun c hc => h c (List.mem_cons_of_mem b hc))
        simp [hpa] at ih'
        simp [List.filter_cons, hpa, ih']

theorem filter_insort {le : Article → Article → Bool} {p : Article → Bool} :
    ∀ {l : List Article},
      (∀ a ∈ l, ∀ b ∈ l, p a = true → p b = true → le a b = true) →
      (insort le l).filter p = l.filter p := by
  intro l
  induction l with
  | nil =>
    intro _
    simp [insort]
  | cons b bs ih =>
    intro h
    have hstep := @filter_insertLe le p b (insort le bs)
      (fun c hc hpb hpc =>
        h b (by simp) c (List.mem_cons_of_mem b (mem_insort.mp hc)) hpb hpc)
    have ih' := ih (fun x hx y hy =>
      h x (List.mem_cons_of_mem b hx) y (List.mem_cons_of_mem b hy))
    simp only [insort, hstep, ih']
    by_cases hpb : p b = true <;> simp [List.filter_cons, hpb]

theorem dateLe_total (a b : PDate) : dateLe a b = true ∨ dateLe b a = true := by
  simp only [dateLe, Bool.or_eq_true, Bool.and_eq_true, decide_eq_true_eq]
  omega

theorem dateLe_trans {a b c : PDate} (h1 : dateLe a b = true)
    (h2 : dateLe b c = true) : dateLe a c = true := by
  simp only [dateLe, Bool.or_eq_true, Bool.and_eq_true, decide_eq_true_eq] at *
  omega

theorem dateLe_refl (a : PDate) : dateLe a a = true := by
  simp only [dateLe, Bool.or_eq_true, Bool.and_eq_true, decide_eq_true_eq,
    true_and]
  omega

theorem dateKeyed_iff {f : String} {a : Article} :
    dateKeyed f a = true ↔ ∃ d, pyGet a f = some (.vdate d) := by
  unfold dateKeyed
  cases h : pyGet a f with
  | none => simp
  | some v => cases v <;> simp

theorem strKeyed_iff {f : String} {a : Article} :
    strKeyed f a = true ↔ ∃ s, pyGet a f = some (.vstr s) := by
  unfold strKeyed
  cases h : pyGet a f with
  | none => simp
  | some v => cases v <;> simp

theorem pyCmpLe_refl_of_kind {v : PyVal}
    (h : (∃ d, v = PyVal.vdate d) ∨ (∃ s, v = PyVal.vstr s)) :
    pyCmpLe v v = true := by
  rcases h with ⟨d, rfl⟩ | ⟨s, rfl⟩
  · exact dateLe_refl d
  · simp [pyCmpLe]

/-- Totality of the sort order on a list of uniformly date-keyed or uniformly
string-keyed articles. -/
theorem sortLe_total_hom {f : String} {rev : Bool} {l : List Article}
    (hom : l.all (dateKeyed f) = true ∨ l.all (strKeyed f) = true) :
    ∀ x ∈ l, ∀ y ∈ l, sortLe f rev x y = true ∨ sortLe f rev y x = true := by
  intro x hx y hy
  rcases hom with hom | hom
  · rcases dateKeyed_iff.mp (List.all_eq_true.mp hom x hx) with ⟨dx, hdx⟩
    rcases dateKeyed_iff.mp (List.all_eq_true.mp hom y hy) with ⟨dy, hdy⟩
    have : pyCmpLe (keyAt f x) (keyAt f y) = dateLe dx dy := by
      simp [keyAt, hdx, hdy, pyCmpLe]
    have h2 : pyCmpLe (keyAt f y) (keyAt f x) = dateLe dy dx := by
      simp [keyAt, hdx, hdy, pyCmpLe]
    cases rev <;> simp only [sortLe, if_true, if_false, Bool.false_eq_true] <;>
      rw [this, h2] <;> first
        | exact dateLe_total dx dy
        | exact (dateLe_total dx dy).symm
  · rcases strKeyed_iff.mp (List.all_eq_true.mp hom x hx) with ⟨sx, hsx⟩
    rcases strKeyed_iff.mp (List.all_eq_true.mp hom y hy) with ⟨sy, hsy⟩
    have h1 : pyCmpLe (keyAt f x) (keyAt f y) = decide (sx ≤ sy) := by
      simp [keyAt, hsx, hsy, pyCmpLe]
    have h2 : pyCmpLe (keyAt f y) (keyAt f x) = decide (sy ≤ sx) := by
      simp [keyAt, hsx, hsy, pyCmpLe]
    have htot := le_total sx sy
    cases rev <;> simp only [sortLe, if_true, if_false, Bool.false_eq_true] <;>
      rw [h1, h2] <;> simp only [decide_eq_true_eq] <;> tauto

/-- Transitivity of the sort order under the same homogeneity condition. -/
theorem sortLe_trans_hom {f : String} {rev : Bool} {l : List Article}
    (hom : l.all (dateKeyed f) = true ∨ l.all (strKeyed f) = true) :
    ∀ x ∈ l, ∀ y ∈ l, ∀ z ∈ l,
      sortLe f rev x y = true → sortLe f rev y z = true →
      sortLe f rev x z = true := by
  intro x hx y hy z hz h1 h2
  rcases hom with hom | hom
  · rcases dateKeyed_iff.mp (List.all_eq_true.mp hom x hx) with ⟨dx, hdx⟩
    rcases dateKeyed_iff.mp (List.all_eq_true.mp hom y hy) with ⟨dy, hdy⟩
    rcases dateKeyed_iff.mp (List.all_eq_true.mp hom z hz) with ⟨dz, hdz⟩
    cases rev <;>
      simp only [sortLe, if_true, if_false, Bool.false_eq_true,
        keyAt, hdx, hdy, hdz, Option.getD_some, pyCmpLe] at h1 h2 ⊢
    · exact dateLe_trans h1 h2
    · exact dateLe_trans h2 h1
  · rcases strKeyed_iff.mp (List.all_eq_true.mp hom x hx) with ⟨sx, hsx⟩
    rcases strKeyed_iff.mp (List.all_eq_true.mp hom y hy) with ⟨sy, hsy⟩
    rcases strKeyed_iff.mp (List.all_eq_true.mp hom z hz) with ⟨sz, hsz⟩
    cases rev <;>
      simp only [sortLe, if_true, if_false, Bool.false_eq_true,
        keyAt, hsx, hsy, hsz, Option.getD_some, pyCmpLe,
        decide_eq_true_eq] at h1 h2 ⊢
    · exact le_trans h1 h2
    · exact le_trans h2 h1

/-- Articles whose key at `f` equals a common value are mutually `sortLe`
(in both directions), provided that value's kind is comparable. -/
theorem sortLe_of_keyEq {f : String} {rev : Bool} {l : List Article}
    (hom : l.all (dateKeyed f) = true ∨ l.all (strKeyed f) = true)
    {v : PyVal} :
    ∀ x ∈ l, ∀ y ∈ l, (pyGet x f == some v) = true →
      (pyGet y f == some v) = true → sortLe f rev x y = true := by
  intro x hx y hy hvx hvy
  have hvx' : pyGet x f = some v := by simpa using hvx
  have hvy' : pyGet y f = some v := by simpa using hvy
  have hkind : (∃ d, v = PyVal.vdate d) ∨ (∃ s, v = PyVal.vstr s) := by
    rcases hom with hom | hom
    · rcases dateKeyed_iff.mp (List.all_eq_true.mp hom x hx) with ⟨dx, hdx⟩
      rw [hvx'] at hdx
      exact Or.inl ⟨dx, (Option.some_injective _ hdx).symm ▸ rfl⟩
    · rcases strKeyed_iff.mp (List.all_eq_true.mp hom x hx) with ⟨sx, hsx⟩
      rw [hvx'] at hsx
      exact Or.inr ⟨sx, (Option.some_injective _ hsx).symm ▸ rfl⟩
  have hkx : keyAt f x = v := by simp [keyAt, hvx']
  have hky : keyAt f y = v := by simp [keyAt, hvy']
  cases rev <;>
    simp only [sortLe, if_true, if_false, Bool.false_eq_true, hkx, hky] <;>
    exact pyCmpLe_refl_of_kind hkind

theorem pairwise_of_short {R : Article → Article → Prop} {l : List Article}
    (h : l.length ≤ 1) : List.Pairwise R l := by
  match l, h with
  | [], _ => exact List.Pairwise.nil
  | [a], _ => exact List.pairwise_singleton R a

/-- C1: whenever `generate_rss_feed` produces a feed (no exception), the
entry order is: the dated articles first — a permutation of the dated
sublist, sorted on the resolved date field, descending when `sort_reverse`
is true and ascending when it is false, with equal-key articles keeping
their original discovery order — followed by the dateless articles in their
original discovery order. -/
theorem c1_generate_rss_feed_order
    (articles : List Article) (cfg : FeedConfig) (out : List Article)
    (df actual : String) (rev : Bool)
    (hdf : df = cfg.date_field.getD "date")
    (hact : actual = resolvedField df (articles.filter (datedP df)))
    (hrev : rev = cfg.sort_reverse.getD true)
    (hout : generate_rss_feed articles cfg = some out) :
    ∃ sortedDated : List Article,
      out = sortedDated ++ articles.filter (fun a => !datedP df a) ∧
      sortedDated.Perm (articles.filter (datedP df)) ∧
      (∀ a ∈ sortedDated, datedP df a = true) ∧
      (rev = true → sortedDated.Pairwise
        (fun a b => pyCmpLe (keyAt actual b) (keyAt actual a) = true)) ∧
      (rev = false → sortedDated.Pairwise
        (fun a b => pyCmpLe (keyAt actual a) (keyAt actual b) = true)) ∧
      (∀ v : PyVal,
        sortedDated.filter (fun a => pyGet a actual == some v) =
          (articles.filter (datedP df)).filter
            (fun a => pyGet a actual == some v)) := by
  cases ht : cfg.title with
  | none => simp [generate_rss_feed, ht] at hout
  | some tv =>
  cases hd : cfg.description with
  | none => simp [generate_rss_feed, ht, hd] at hout
  | some dv =>
  cases hl : cfg.link with
  | none => simp [generate_rss_feed, ht, hd, hl] at hout
  | some lv =>
  simp only [generate_rss_feed, ht, hd, hl] at hout
  rw [← hdf] at hout
  rw [← hact] at hout
  rw [← hrev] at hout
  rcases Option.map_eq_some'.mp hout with ⟨sorted, hsort, hcat⟩
  refine ⟨sorted, ?_, ?_, ?_, ?_, ?_, ?_⟩
  case _ =>
    rw [← hcat]
    congr 1
    apply List.filter_congr
    intro a _
    simp [datedP, Bool.not_or]
  all_goals
    unfold pySortByKey at hsort
  · split at hsort
    · exact absurd hsort (by simp)
    · split at hsort
      · rw [Option.some_injective _ hsort.symm]
      · split at hsort
        · rw [Option.some_injective _ hsort.symm]
          exact (insort_perm _ _)
        · exact absurd hsort (by simp)
  · intro a ha
    split at hsort
    · exact absurd hsort (by simp)
    · split at hsort
      · rw [Option.some_injective _ hsort.symm] at ha
        exact (List.mem_filter.mp ha).2
      · split at hsort
        · rw [Option.some_injective _ hsort.symm] at ha
          exact (List.mem_filter.mp (mem_insort.mp ha)).2
        · exact absurd hsort (by simp)
  · intro hrt
    split at hsort
    · exact absurd hsort (by simp)
    · split at hsort
      · rename_i hshort
        rw [Option.some_injective _ hsort.symm]
        exact pairwise_of_short hshort
      · split at hsort
        · rename_i hom
          rw [Option.some_injective _ hsort.symm]
          have hp := @pairwise_insort (sortLe actual rev)
            (articles.filter (datedP df))
            (sortLe_total_hom (Bool.or_eq_true _ _ |>.mp hom)) (sortLe_trans_hom (Bool.or_eq_true _ _ |>.mp hom))
          refine hp.imp ?_
          intro a b hab
          rw [hrt] at hab
          simpa [sortLe] using hab
        · exact absurd hsort (by simp)
  · intro hrf
    split at hsort
    · exact absurd hsort (by simp)
    · split at hsort
      · rename_i hshort
        rw [Option.some_injective _ hsort.symm]
        exact pairwise_of_short hshort
      · split at hsort
        · rename_i hom
          rw [Option.some_injective _ hsort.symm]
          have hp := @pairwise_insort (sortLe actual rev)
            (articles.filter (datedP df))
            (sortLe_total_hom (Bool.or_eq_true _ _ |>.mp hom)) (sortLe_trans_hom (Bool.or_eq_true _ _ |>.mp hom))
          refine hp.imp ?_
          intro a b hab
          rw [hrf] at hab
          simpa [sortLe] using hab
        · exact absurd hsort (by simp)
  · intro v
    split at hsort
    · exact absurd hsort (by simp)
    · split at hsort
      · rw [Option.some_injective _ hsort.symm]
      · split at hsort
        · rename_i hom
          rw [Option.some_injective _ hsort.symm]
          exact filter_insort (sortLe_of_keyEq (Bool.or_eq_true _ _ |>.mp hom))
        · exact absurd hsort (by simp)

theorem dateLtP_ne {a b : PDate} (h : dateLtP a b) : a ≠ b := by
  intro heq
  subst heq
  simp only [dateLtP] at h
  omega

theorem dateLtP_trans {a b c : PDate} (h1 : dateLtP a b) (h2 : dateLtP b c) :
    dateLtP a c := by
  simp only [dateLtP] at *
  omega

theorem nextDay_lt (d : PDate) : dateLtP d (nextDay d) := by
  unfold nextDay
  split
  · simp [dateLtP]
  · split <;> simp [dateLtP]

theorem addDays_succ_out : ∀ (n : Nat) (d : PDate),
    addDays d (n + 1) = nextDay (addDays d n) := by
  intro n
  induction n with
  | zero => intro d; rfl
  | succ m ih =>
    intro d
    show addDays (nextDay d) (m + 1) = nextDay (addDays d (m + 1))
    rw [ih (nextDay d)]
    rfl

theorem addDays_lt (d : PDate) {n m : Nat} (h : n < m) :
    dateLtP (addDays d n) (addDays d m) := by
  induction m with
  | zero => omega
  | succ k ih =>
    rw [addDays_succ_out]
    rcases Nat.lt_succ_iff_lt_or_eq.mp h with h' | h'
    · exact dateLtP_trans (ih h') (nextDay_lt _)
    · rw [h']
      exact nextDay_lt _

/-- C4 (refutation of cross-run stability, and the window property): under
two different per-process hash secrets the fallback date of the same
identifier differs, while for every secret and identifier the result stays
in the 730-day window anchored at the 2023-01-01 epoch. -/
theorem c4_stable_fallback_date_salted :
    stable_fallback_date 0 0 "x" ≠ stable_fallback_date 1 0 "x" ∧
    ∀ k0 k1 : Nat, ∀ s : String, ∃ n : Nat, n ≤ 729 ∧
      stable_fallback_date k0 k1 s = addDays epoch2023 n := by
  constructor
  · have h1 : (pyHashStr 0 0 "x").natAbs % 730 = 687 := by decide
    have h2 : (pyHashStr 1 0 "x").natAbs % 730 = 184 := by decide
    show addDays epoch2023 ((pyHashStr 0 0 "x").natAbs % 730) ≠
      addDays epoch2023 ((pyHashStr 1 0 "x").natAbs % 730)
    rw [h1, h2]
    exact (dateLtP_ne (addDays_lt epoch2023 (by omega))).symm
  · intro k0 k1 s
    refine ⟨(pyHashStr k0 k1 s).natAbs % 730, ?_, rfl⟩
    have := Nat.mod_lt (pyHashStr k0 k1 s).natAbs (y := 730) (by omega)
    omega

/-- C10: an input on which every article is dated and individually passes
validation, yet `generate_rss_feed` raises (the resolved date field `"date"`
is taken from the first dated article and the second dated article lacks
that key, so the sort key lookup raises `KeyError`) and no feed document is
produced. -/
theorem c10_mixed_date_fields_raise :
    generate_rss_feed
      [[("title", .vstr "Alpha entry"), ("link", .vstr "https://e/1"),
        ("description", .vstr "d"), ("date", .vdate ⟨2024, 5, 1⟩)],
       [("title", .vstr "Beta entry"), ("link", .vstr "https://e/2"),
        ("description", .vstr "d"), ("pub_date", .vdate ⟨2023, 1, 1⟩)]]
      { title := some "t", description := some "d", link := some "l" } =
      none ∧
    validate_article
      [("title", .vstr "Alpha entry"), ("link", .vstr "https://e/1"),
       ("description", .vstr "d"), ("date", .vdate ⟨2024, 5, 1⟩)] true =
      some true ∧
    validate_article
      [("title", .vstr "Beta entry"), ("link", .vstr "https://e/2"),
       ("description", .vstr "d"), ("pub_date", .vdate ⟨2023, 1, 1⟩)] false =
      some true := by
  refine ⟨?_, by decide, by decide⟩
  decide

/-- C2 (refutation as stated): this article's title has raw length 5 but
trimmed length 2, and `validate_article` accepts it while the claimed
rejection conditions (title shorter than 5 characters after trimming) hold,
so the claim's "exactly when" characterization is false on the code. -/
theorem c2_counterexample_trimmed_title :
    validate_article
      [("title", .vstr "hi   "), ("link", .vstr "https://e/x"),
       ("date", .vdate ⟨2025, 1, 1⟩)] true = some true ∧
    validate_article_spec
      [("title", .vstr "hi   "), ("link", .vstr "https://e/x"),
       ("date", .vdate ⟨2025, 1, 1⟩)] true = false := by
  constructor
  · decide
  · decide

/-- C2 (amended): whenever `validate_article` returns a boolean (no type
error), it returns `true` iff the title is a string of raw — untrimmed —
length at least 5, the link is a string beginning with the literal prefix
`"http"` (not necessarily a full HTTP(S) scheme), and, when a date is
required, the article's `"date"` entry is present and truthy. -/
theorem c2_validate_article_characterization
    (a : Article) (rd : Bool) (b : Bool)
    (h : validate_article a rd = some b) :
    b = true ↔
      ((∃ t, pyGet a "title" = some (.vstr t) ∧ t ≠ "" ∧ 5 ≤ t.length) ∧
       (∃ l, pyGet a "link" = some (.vstr l) ∧ l ≠ "" ∧
         pyStartsWith l "http" = true) ∧
       (rd = true → truthyGet a "date" = true)) := by
  cases hT : pyGet a "title" with
  | none =>
    simp only [validate_article, hT] at h
    simp only [Option.some_inj] at h
    subst h
    simp
  | some vT =>
    cases vT with
    | vnone =>
      simp only [validate_article, hT] at h
      simp only [Option.some_inj] at h
      subst h
      simp
    | vdate dT =>
      simp only [validate_article, hT] at h
      exact absurd h (by simp)
    | vstr t =>
      simp only [validate_article, hT] at h
      by_cases hts : (t = "" || decide (t.length < 5)) = true
      · rw [if_pos hts] at h
        simp only [Option.some_inj] at h
        simp only [Bool.or_eq_true, decide_eq_true_eq] at hts
        refine iff_of_false (by simp [← h]) ?_
        rintro ⟨⟨t2, ht2, hne, hlen⟩, -, -⟩
        rw [Option.some_inj, PyVal.vstr.injEq] at ht2
        subst ht2
        rcases hts with h2 | h2
        · exact hne h2
        · omega
      · rw [if_neg hts] at h
        simp only [Bool.or_eq_true, decide_eq_true_eq, not_or] at hts
        cases hL : pyGet a "link" with
        | none =>
          simp only [hL] at h
          simp only [Option.some_inj] at h
          subst h
          simp
        | some vL =>
          cases vL with
          | vnone =>
            simp only [hL] at h
            simp only [Option.some_inj] at h
            subst h
            simp
          | vdate dL =>
            simp only [hL] at h
            exact absurd h (by simp)
          | vstr l =>
            simp only [hL] at h
            by_cases hls : (l = "" || !pyStartsWith l "http") = true
            · rw [if_pos hls] at h
              simp only [Option.some_inj] at h
              simp only [Bool.or_eq_true, Bool.not_eq_true',
                decide_eq_true_eq] at hls
              refine iff_of_false (by simp [← h]) ?_
              rintro ⟨-, ⟨l2, hl2, hne, hsw⟩, -⟩
              rw [Option.some_inj, PyVal.vstr.injEq] at hl2
              subst hl2
              rcases hls with h2 | h2
              · exact hne h2
              · rw [h2] at hsw
                cases hsw
            · rw [if_neg hls] at h
              simp only [Bool.or_eq_true, Bool.not_eq_true',
                decide_eq_true_eq, not_or, Bool.not_eq_false] at hls
              by_cases hdd : (rd && !truthyGet a "date") = true
              · rw [if_pos hdd] at h
                simp only [Option.some_inj] at h
                simp only [Bool.and_eq_true, Bool.not_eq_true'] at hdd
                refine iff_of_false (by simp [← h]) ?_
                rintro ⟨-, -, hreq⟩
                rw [hreq hdd.1] at hdd
                cases hdd.2
              · rw [if_neg hdd] at h
                simp only [Option.some_inj] at h
                simp only [Bool.and_eq_true, Bool.not_eq_true', not_and,
                  Bool.not_eq_false] at hdd
                refine iff_of_true (by simp [← h]) ?_
                exact ⟨⟨t, rfl, hts.1, by omega⟩, ⟨l, rfl, hls.1, hls.2⟩, hdd⟩

/-- Witness for the amended C2 characterization at a concrete article. -/
theorem c2_validate_article_characterization_witness :
    (true = true ↔
      ((∃ t, pyGet [("title", PyVal.vstr "Hello World"),
          ("link", PyVal.vstr "https://e/x"),
          ("date", PyVal.vdate ⟨2025, 1, 1⟩)] "title" =
            some (.vstr t) ∧ t ≠ "" ∧ 5 ≤ t.length) ∧
       (∃ l, pyGet [("title", PyVal.vstr "Hello World"),
          ("link", PyVal.vstr "https://e/x"),
          ("date", PyVal.vdate ⟨2025, 1, 1⟩)] "link" =
            some (.vstr l) ∧ l ≠ "" ∧ pyStartsWith l "http" = true) ∧
       (true = true → truthyGet [("title", PyVal.vstr "Hello World"),
          ("link", PyVal.vstr "https://e/x"),
          ("date", PyVal.vdate ⟨2025, 1, 1⟩)] "date" = true))) :=
  c2_validate_article_characterization
    [("title", PyVal.vstr "Hello World"), ("link", PyVal.vstr "https://e/x"),
     ("date", PyVal.vdate ⟨2025, 1, 1⟩)] true true (by decide)

/-- Witness for C1 at a concrete input (descending default sort, one tie,
one dateless article). -/
theorem c1_generate_rss_feed_order_witness :
    ∃ sortedDated : List Article,
      [wArt2, wArt1, wArt4, wArt3] =
        sortedDated ++ wArts.filter (fun a => !datedP "date" a) ∧
      sortedDated.Perm (wArts.filter (datedP "date")) ∧
      (∀ a ∈ sortedDated, datedP "date" a = true) ∧
      (true = true → sortedDated.Pairwise
        (fun a b => pyCmpLe (keyAt "date" b) (keyAt "date" a) = true)) ∧
      (true = false → sortedDated.Pairwise
        (fun a b => pyCmpLe (keyAt "date" a) (keyAt "date" b) = true)) ∧
      (∀ v : PyVal,
        sortedDated.filter (fun a => pyGet a "date" == some v) =
          (wArts.filter (datedP "date")).filter
            (fun a => pyGet a "date" == some v)) :=
  c1_generate_rss_feed_order wArts wCfg [wArt2, wArt1, wArt4, wArt3]
    "date" "date" true rfl rfl rfl (by decide)

theorem tryFormats_none (cy : Nat) :
    ∀ (fs : List Fmt) (s : List Char),
      (∀ f ∈ fs, strptimeF f s = none) → tryFormats cy fs s = none := by
  intro fs
  induction fs with
  | nil => intro s _; rfl
  | cons f rest ih =>
    intro s hall
    simp only [tryFormats, hall f (by simp)]
    exact ih s (fun g hg => hall g (List.mem_cons_of_mem f hg))

theorem pyStrip_of_all_wsp {l : List Char} (h : l.all isWsp = true) :
    pyStrip l = [] := by
  have h1 : l.dropWhile isWsp = [] :=
    List.dropWhile_eq_nil_iff.mpr (fun x hx => List.all_eq_true.mp h x hx)
  simp [pyStrip, h1]

/-- C6: `parse_date` returns the unparsable indicator `None` — and, being a
total function over its modelled inputs, raises nothing — on every
unparsable input: a `None` input, the empty string, whitespace-only text,
and any text on which every one of the ten `strptime` formats fails. -/
theorem c6_parse_date_unparsable (cy : Nat) :
    parse_date cy none = none ∧
    parse_date cy (some "") = none ∧
    (∀ t : String, t.toList.all isWsp = true → parse_date cy (some t) = none) ∧
    (∀ t : String, (∀ f ∈ formats, strptimeF f (pyStrip t.toList) = none) →
      parse_date cy (some t) = none) := by
  refine ⟨rfl, rfl, ?_, ?_⟩
  · intro t ht
    simp only [parse_date]
    split
    · rfl
    · rw [pyStrip_of_all_wsp ht]
      rfl
  · intro t ht
    simp only [parse_date]
    split
    · rfl
    · exact tryFormats_none cy formats _ ht

/-- Witness for C6 at two concrete unparsable inputs. -/
theorem c6_parse_date_unparsable_witness :
    parse_date 2025 (some "not a date") = none ∧
    parse_date 2025 (some "   ") = none :=
  ⟨(c6_parse_date_unparsable 2025).2.2.2 "not a date" (by decide),
   (c6_parse_date_unparsable 2025).2.2.1 "   " (by decide)⟩

theorem monthsAbbr_ok : tableOK monthsAbbr := by
  unfold tableOK
  decide

theorem monthsFull_ok : tableOK monthsFull := by
  unfold tableOK
  decide

theorem tablesCross_all :
    tablesCross monthsAbbr monthsAbbr ∧ tablesCross monthsAbbr monthsFull ∧
    tablesCross monthsFull monthsAbbr ∧ tablesCross monthsFull monthsFull := by
  unfold tablesCross
  refine ⟨?_, ?_, ?_, ?_⟩ <;> decide

theorem asciiLower_of_not_upper {c : Char} (h : ¬(65 ≤ c.toNat ∧ c.toNat ≤ 90)) :
    asciiLower c = c := by
  simp [asciiLower, h]

theorem wsp_toNat {c : Char} (h : isWsp c = true) : c.toNat ≤ 32 := by
  simp only [isWsp, Bool.or_eq_true, decide_eq_true_eq] at h
  omega

theorem digit_toNat {c : Char} (h : isDigitC c = true) :
    48 ≤ c.toNat ∧ c.toNat ≤ 57 := by
  simp only [isDigitC, Bool.and_eq_true, decide_eq_true_eq] at h
  omega

theorem wsp_not_digit {c : Char} (h : isWsp c = true) : isDigitC c = false := by
  cases hd : isDigitC c
  · rfl
  · have h1 := wsp_toNat h
    have h2 := digit_toNat hd
    omega

theorem parseName_eq_some {tbl : MonthTable} {s : List Char} {m : Nat}
    {r : List Char} :
    parseName tbl s = some (m, r) →
    ∃ nm, (nm, m) ∈ tbl ∧ (s.take nm.length).map asciiLower = nm ∧
      r = s.drop nm.length := by
  induction tbl with
  | nil => intro h; cases h
  | cons p rest ih =>
    intro h
    obtain ⟨nm, mv⟩ := p
    simp only [parseName] at h
    split at h
    · rename_i htake
      rw [Option.some_inj, Prod.mk.injEq] at h
      exact ⟨nm, by simp [← h.1], by rw [htake], by rw [← h.2]⟩
    · rcases ih h with ⟨nm', hmem, htake, hdrop⟩
      exact ⟨nm', List.mem_cons_of_mem _ hmem, htake, hdrop⟩

theorem parseWsp_eq_some {s r : List Char} :
    parseWsp s = some r →
    ∃ c rest, s = c :: rest ∧ isWsp c = true ∧ r = rest.dropWhile isWsp := by
  cases s with
  | nil => intro h; cases h
  | cons c rest =>
    intro h
    simp only [parseWsp] at h
    split at h
    · exact ⟨c, rest, rfl, by assumption, (Option.some_inj.mp h).symm⟩
    · cases h

theorem parseLit_eq_some {c : Char} {s r : List Char} :
    parseLit c s = some r → s = c :: r := by
  cases s with
  | nil => intro h; cases h
  | cons c1 rest =>
    intro h
    simp only [parseLit] at h
    split at h
    · rename_i hc
      rw [hc, Option.some_inj.mp h]
    · cases h

theorem parseDay_shape {s : List Char} {d : Nat} {r : List Char} :
    parseDay s = some (d, r) →
    (∃ c1 c2 t, s = c1 :: c2 :: t ∧ isDigitC c1 = true ∧ isDigitC c2 = true ∧
      r = t) ∨
    (∃ c1, s = c1 :: r ∧ isDigitC c1 = true) := by
  match s with
  | [] => intro h; cases h
  | [c1] =>
    intro h
    simp only [parseDay] at h
    split at h
    · rename_i hc
      rw [Option.some_inj, Prod.mk.injEq] at h
      refine Or.inr ⟨c1, by rw [← h.2], ?_⟩
      simp only [Bool.and_eq_true, decide_eq_true_eq] at hc
      simp only [isDigitC, Bool.and_eq_true, decide_eq_true_eq]
      omega
    · cases h
  | c1 :: c2 :: t =>
    intro h
    simp only [parseDay] at h
    split at h
    · rename_i hc
      rw [Option.some_inj, Prod.mk.injEq] at h
      simp only [Bool.and_eq_true, Bool.or_eq_true, decide_eq_true_eq] at hc
      refine Or.inl ⟨c1, c2, t, rfl, ?_, ?_, h.2.symm⟩
      · rw [hc.1]
        decide
      · rcases hc.2 with h2 | h2 <;> rw [h2] <;> decide
    · split at h
      · rename_i hc
        rw [Option.some_inj, Prod.mk.injEq] at h
        simp only [Bool.and_eq_true, Bool.or_eq_true, decide_eq_true_eq] at hc
        refine Or.inl ⟨c1, c2, t, rfl, ?_, hc.2, h.2.symm⟩
        rcases hc.1 with h1 | h1 <;> rw [h1] <;> decide
      · split at h
        · rename_i hc
          rw [Option.some_inj, Prod.mk.injEq] at h
          simp only [Bool.and_eq_true, decide_eq_true_eq] at hc
          refine Or.inl ⟨c1, c2, t, rfl, by rw [hc.1]; decide, ?_, h.2.symm⟩
          simp only [isDigitC, Bool.and_eq_true, decide_eq_true_eq]
          omega
        · split at h
          · rename_i hc
            rw [Option.some_inj, Prod.mk.injEq] at h
            simp only [Bool.and_eq_true, decide_eq_true_eq] at hc
            refine Or.inr ⟨c1, by rw [← h.2], ?_⟩
            simp only [isDigitC, Bool.and_eq_true, decide_eq_true_eq]
            omega
          · cases h

theorem parseMonthNum_shape {s : List Char} {m : Nat} {r : List Char} :
    parseMonthNum s = some (m, r) →
    (∃ c1 c2 t, s = c1 :: c2 :: t ∧ isDigitC c1 = true ∧ isDigitC c2 = true ∧
      r = t) ∨
    (∃ c1, s = c1 :: r ∧ isDigitC c1 = true) := by
  match s with
  | [] => intro h; cases h
  | [c1] =>
    intro h
    simp only [parseMonthNum] at h
    split at h
    · rename_i hc
      rw [Option.some_inj, Prod.mk.injEq] at h
      refine Or.inr ⟨c1, by rw [← h.2], ?_⟩
      simp only [Bool.and_eq_true, decide_eq_true_eq] at hc
      simp only [isDigitC, Bool.and_eq_true, decide_eq_true_eq]
      omega
    · cases h
  | c1 :: c2 :: t =>
    intro h
    simp only [parseMonthNum] at h
    split at h
    · rename_i hc
      rw [Option.some_inj, Prod.mk.injEq] at h
      simp only [Bool.and_eq_true, Bool.or_eq_true, decide_eq_true_eq] at hc
      refine Or.inl ⟨c1, c2, t, rfl, by rw [hc.1]; decide, ?_, h.2.symm⟩
      rcases hc.2 with (h2 | h2) | h2 <;> rw [h2] <;> decide
    · split at h
      · rename_i hc
        rw [Option.some_inj, Prod.mk.injEq] at h
        simp only [Bool.and_eq_true, decide_eq_true_eq] at hc
        refine Or.inl ⟨c1, c2, t, rfl, by rw [hc.1]; decide, ?_, h.2.symm⟩
        simp only [isDigitC, Bool.and_eq_true, decide_eq_true_eq]
        omega
      · split at h
        · rename_i hc
          rw [Option.some_inj, Prod.mk.injEq] at h
          simp only [Bool.and_eq_true, decide_eq_true_eq] at hc
          refine Or.inr ⟨c1, by rw [← h.2], ?_⟩
          simp only [isDigitC, Bool.and_eq_true, decide_eq_true_eq]
          omega
        · cases h

theorem parseYear_shape {s : List Char} {y : Nat} {r : List Char} :
    parseYear s = some (y, r) →
    ∃ c1 c2 c3 c4, s = c1 :: c2 :: c3 :: c4 :: r ∧ isDigitC c1 = true ∧
      isDigitC c2 = true ∧ isDigitC c3 = true ∧ isDigitC c4 = true := by
  match s with
  | [] | [_] | [_, _] | [_, _, _] => intro h; cases h
  | c1 :: c2 :: c3 :: c4 :: t =>
    intro h
    simp only [parseYear] at h
    split at h
    · rename_i hc
      rw [Option.some_inj, Prod.mk.injEq] at h
      simp only [Bool.and_eq_true] at hc
      exact ⟨c1, c2, c3, c4, by rw [← h.2], hc.1.1.1, hc.1.1.2, hc.1.2, hc.2⟩
    · cases h

theorem asciiLower_wsp {c : Char} (h : isWsp c = true) : asciiLower c = c := by
  apply asciiLower_of_not_upper
  have := wsp_toNat h
  omega

/-- If month names from two well-formed tables both match at the head of
the same string and each is followed by whitespace, they are the same name,
hence denote the same month and leave the same remainder. -/
theorem parseName_agree {t1 t2 : MonthTable} {s : List Char}
    {m1 m2 : Nat} {r1 r2 : List Char}
    (ht1 : tableOK t1) (ht2 : tableOK t2) (hx : tablesCross t1 t2)
    (h1 : parseName t1 s = some (m1, r1))
    (h2 : parseName t2 s = some (m2, r2))
    (hw1 : ∃ c rest, r1 = c :: rest ∧ isWsp c = true)
    (hw2 : ∃ c rest, r2 = c :: rest ∧ isWsp c = true) :
    m1 = m2 ∧ r1 = r2 := by
  rcases parseName_eq_some h1 with ⟨nm1, hmem1, htake1, hdrop1⟩
  rcases parseName_eq_some h2 with ⟨nm2, hmem2, htake2, hdrop2⟩
  have hkey : ∀ (nmA : List Char) (kA kB : Nat),
      kA < kB → nmA.all isLowerAlpha = true → nmA.length = kB →
      (s.take kB).map asciiLower = nmA →
      (∃ c rest, s.drop kA = c :: rest ∧ isWsp c = true) → False := by
    intro nmA kA kB hlt halpha hlen htake hw
    rcases hw with ⟨c, rest, hdropA, hcw⟩
    have hsA : s[kA]? = some c := by
      have := List.getElem?_drop s kA 0
      rw [hdropA] at this
      simpa using this.symm
    have hnmA : nmA[kA]? = some (asciiLower c) := by
      rw [← htake, List.getElem?_map, List.getElem?_take, if_pos hlt, hsA]
      rfl
    have hmem : asciiLower c ∈ nmA := by
      rcases List.getElem?_eq_some_iff.mp hnmA with ⟨hlt2, hget⟩
      rw [← hget]
      exact List.getElem_mem hlt2
    have halc : isLowerAlpha (asciiLower c) = true :=
      List.all_eq_true.mp halpha _ hmem
    rw [asciiLower_wsp hcw] at halc
    have h1' := wsp_toNat hcw
    simp only [isLowerAlpha, Bool.and_eq_true, decide_eq_true_eq] at halc
    omega
  rcases Nat.lt_trichotomy nm1.length nm2.length with hlt | heq | hlt
  · exact absurd (hkey nm2 nm1.length nm2.length hlt
      ((ht2 _ hmem2).2) rfl htake2 (hdrop1 ▸ hw1)) (fun h => h)
  · rw [heq] at htake1
    have hnm : nm1 = nm2 := htake1.symm.trans htake2
    refine ⟨hx _ hmem1 _ hmem2 hnm, ?_⟩
    rw [hdrop1, hdrop2, heq]
  · exact absurd (hkey nm1 nm2.length nm1.length hlt
      ((ht1 _ hmem1).2) rfl htake1 (hdrop2 ▸ hw2)) (fun h => h)

/-- A successful month-name parse means the input starts with a non-digit. -/
theorem parseName_head {t : MonthTable} {s : List Char} {m : Nat}
    {r : List Char} (ht : tableOK t) (h : parseName t s = some (m, r)) :
    ∃ c rest, s = c :: rest ∧ isDigitC c = false := by
  rcases parseName_eq_some h with ⟨nm, hmem, htake, -⟩
  rcases ht _ hmem with ⟨hne, halpha⟩
  cases hnm : nm with
  | nil => exact absurd hnm hne
  | cons n0 nmr =>
    cases hs : s with
    | nil =>
      rw [hs, hnm] at htake
      simp at htake
    | cons c rest =>
      refine ⟨c, rest, rfl, ?_⟩
      rw [hs, hnm] at htake
      have hlen : (nm.length) = nmr.length + 1 := by rw [hnm]; rfl
      rw [hnm] at hlen
      cases hd : isDigitC c
      · rfl
      · exfalso
        have htk : (List.take (nmr.length + 1) (c :: rest)).map asciiLower =
            n0 :: nmr := by
          simpa [hlen] using htake
        rw [List.take_succ_cons, List.map_cons] at htk
        have hc0 : asciiLower c = n0 := (List.cons.injEq _ _ _ _ ▸ htk).1
        have hdig := digit_toNat hd
        have hlow : asciiLower c = c := asciiLower_of_not_upper (by omega)
        rw [hlow] at hc0
        have halpha0 : isLowerAlpha n0 = true :=
          List.all_eq_true.mp halpha n0 (by rw [hnm]; simp)
        simp only [isLowerAlpha, Bool.and_eq_true, decide_eq_true_eq] at halpha0
        rw [← hc0] at halpha0
        omega

theorem pMD_eq_some {t : MonthTable} {s : List Char} {m d : Nat}
    {r : List Char} (h : pMD t s = some (m, d, r)) :
    ∃ rA rB, parseName t s = some (m, rA) ∧ parseWsp rA = some rB ∧
      parseDay rB = some (d, r) := by
  unfold pMD at h
  rcases Option.bind_eq_some.mp h with ⟨mr, hname, h2⟩
  rcases Option.bind_eq_some.mp h2 with ⟨rB, hwsp, h3⟩
  rcases Option.map_eq_some'.mp h3 with ⟨dr, hday, heq⟩
  obtain ⟨mm, rA⟩ := mr
  obtain ⟨dd, rr⟩ := dr
  simp only [Prod.mk.injEq] at heq
  rcases heq with ⟨hm, hd, hr⟩
  subst hm
  subst hd
  subst hr
  exact ⟨rA, rB, hname, hwsp, hday⟩

theorem pMD_agree {t1 t2 : MonthTable} {s : List Char} {m1 m2 d1 d2 : Nat}
    {r1 r2 : List Char}
    (ht1 : tableOK t1) (ht2 : tableOK t2) (hx : tablesCross t1 t2)
    (h1 : pMD t1 s = some (m1, d1, r1)) (h2 : pMD t2 s = some (m2, d2, r2)) :
    m1 = m2 ∧ d1 = d2 ∧ r1 = r2 := by
  rcases pMD_eq_some h1 with ⟨rA1, rB1, hn1, hw1, hd1⟩
  rcases pMD_eq_some h2 with ⟨rA2, rB2, hn2, hw2, hd2⟩
  have hfw1 : ∃ c rest, rA1 = c :: rest ∧ isWsp c = true := by
    rcases parseWsp_eq_some hw1 with ⟨c, rest, hc, hcw, -⟩
    exact ⟨c, rest, hc, hcw⟩
  have hfw2 : ∃ c rest, rA2 = c :: rest ∧ isWsp c = true := by
    rcases parseWsp_eq_some hw2 with ⟨c, rest, hc, hcw, -⟩
    exact ⟨c, rest, hc, hcw⟩
  rcases parseName_agree ht1 ht2 hx hn1 hn2 hfw1 hfw2 with ⟨hm, hr⟩
  subst hm
  subst hr
  rw [hw1] at hw2
  rw [Option.some_inj.mp hw2] at hd1
  rw [hd1] at hd2
  have := Option.some_inj.mp hd2
  rw [Prod.mk.injEq] at this
  exact ⟨rfl, this.1, this.2⟩

theorem pMD_head {t : MonthTable} {s : List Char} {m d : Nat}
    {r : List Char} (ht : tableOK t) (h : pMD t s = some (m, d, r)) :
    ∃ c rest, s = c :: rest ∧ isDigitC c = false := by
  rcases pMD_eq_some h with ⟨rA, rB, hn, -, -⟩
  exact parseName_head ht hn

/-- Agreement of any two month-name formats that share the same continuation
after the `month name, whitespace, day` prefix. -/
theorem stBind_agree {t1 t2 : MonthTable} {s : List Char}
    {k : Nat × Nat × List Char → Option SField} {r1 r2 : SField}
    (ht1 : tableOK t1) (ht2 : tableOK t2) (hx : tablesCross t1 t2)
    (h1 : (pMD t1 s).bind k = some r1) (h2 : (pMD t2 s).bind k = some r2) :
    r1 = r2 := by
  rcases Option.bind_eq_some.mp h1 with ⟨x1, hp1, hk1⟩
  rcases Option.bind_eq_some.mp h2 with ⟨x2, hp2, hk2⟩
  obtain ⟨m1, d1, rr1⟩ := x1
  obtain ⟨m2, d2, rr2⟩ := x2
  rcases pMD_agree ht1 ht2 hx hp1 hp2 with ⟨hm, hd, hr⟩
  subst hm
  subst hd
  subst hr
  rw [hk1] at hk2
  exact Option.some_inj.mp hk2

theorem stMDName_inv {t : MonthTable} {s : List Char} {r : SField}
    (h : stMDName t s = some r) : ∃ m d, pMD t s = some (m, d, []) := by
  unfold stMDName at h
  rcases Option.bind_eq_some.mp h with ⟨x, hp, hk⟩
  obtain ⟨m, d, rr⟩ := x
  simp only at hk
  split at hk
  · rename_i hrr
    subst hrr
    exact ⟨m, d, hp⟩
  · cases hk

theorem stMDCommaY_inv {t : MonthTable} {s : List Char} {r : SField}
    (h : stMDCommaY t s = some r) :
    ∃ m d t2, pMD t s = some (m, d, ',' :: t2) := by
  unfold stMDCommaY at h
  rcases Option.bind_eq_some.mp h with ⟨x, hp, hk⟩
  obtain ⟨m, d, rr⟩ := x
  simp only at hk
  rcases Option.bind_eq_some.mp hk with ⟨rl, hlit, -⟩
  rw [parseLit_eq_some hlit] at hp
  exact ⟨m, d, rl, hp⟩

theorem stMDSpaceY_inv {t : MonthTable} {s : List Char} {r : SField}
    (h : stMDSpaceY t s = some r) :
    ∃ m d c t2, pMD t s = some (m, d, c :: t2) ∧ isWsp c = true := by
  unfold stMDSpaceY at h
  rcases Option.bind_eq_some.mp h with ⟨x, hp, hk⟩
  obtain ⟨m, d, rr⟩ := x
  simp only at hk
  rcases Option.bind_eq_some.mp hk with ⟨rw2, hwsp, -⟩
  rcases parseWsp_eq_some hwsp with ⟨c, rest, hrr, hcw, -⟩
  rw [hrr] at hp
  exact ⟨m, d, c, rest, hp, hcw⟩

theorem stIso_inv {s : List Char} {r : SField} (h : stIso s = some r) :
    ∃ c1 c2 c3 c4 t, s = c1 :: c2 :: c3 :: c4 :: t ∧ isDigitC c1 = true ∧
      isDigitC c2 = true ∧ isDigitC c3 = true ∧ isDigitC c4 = true := by
  unfold stIso at h
  rcases Option.bind_eq_some.mp h with ⟨yr, hy, -⟩
  obtain ⟨y, ry⟩ := yr
  rcases parseYear_shape hy with ⟨c1, c2, c3, c4, hs, h1, h2, h3, h4⟩
  exact ⟨c1, c2, c3, c4, ry, hs, h1, h2, h3, h4⟩

theorem stSlash_inv {s : List Char} {r : SField} (h : stSlash s = some r) :
    (∃ c1 t, s = c1 :: '/' :: t ∧ isDigitC c1 = true) ∨
    (∃ c1 c2 t, s = c1 :: c2 :: '/' :: t ∧ isDigitC c1 = true ∧
      isDigitC c2 = true) := by
  unfold stSlash at h
  rcases Option.bind_eq_some.mp h with ⟨mr, hm, hk⟩
  obtain ⟨m, rm⟩ := mr
  simp only at hk
  rcases Option.bind_eq_some.mp hk with ⟨rl, hlit, -⟩
  rcases parseMonthNum_shape hm with ⟨c1, c2, t, hs, h1, h2, hr⟩ | ⟨c1, hs, h1⟩
  · subst hr
    rw [parseLit_eq_some hlit] at hs
    exact Or.inr ⟨c1, c2, rl, hs, h1, h2⟩
  · rw [parseLit_eq_some hlit] at hs
    exact Or.inl ⟨c1, rl, hs, h1⟩

theorem stDMY_inv {t : MonthTable} {s : List Char} {r : SField}
    (h : stDMY t s = some r) :
    (∃ c1 c t2, s = c1 :: c :: t2 ∧ isDigitC c1 = true ∧ isWsp c = true) ∨
    (∃ c1 c2 c t2, s = c1 :: c2 :: c :: t2 ∧ isDigitC c1 = true ∧
      isDigitC c2 = true ∧ isWsp c = true) := by
  unfold stDMY at h
  rcases Option.bind_eq_some.mp h with ⟨dr, hd, hk⟩
  obtain ⟨d, rd⟩ := dr
  simp only at hk
  rcases Option.bind_eq_some.mp hk with ⟨rw2, hwsp, -⟩
  rcases parseWsp_eq_some hwsp with ⟨c, rest, hrd, hcw, -⟩
  rcases parseDay_shape hd with ⟨c1, c2, t2, hs, h1, h2, hr⟩ | ⟨c1, hs, h1⟩
  · subst hr
    rw [hrd] at hs
    exact Or.inr ⟨c1, c2, c, rest, hs, h1, h2, hcw⟩
  · rw [hrd] at hs
    exact Or.inl ⟨c1, c, rest, hs, h1, hcw⟩

theorem stDMY_agree {t1 t2 : MonthTable} {s : List Char} {r1 r2 : SField}
    (ht1 : tableOK t1) (ht2 : tableOK t2) (hx : tablesCross t1 t2)
    (h1 : stDMY t1 s = some r1) (h2 : stDMY t2 s = some r2) : r1 = r2 := by
  unfold stDMY at h1 h2
  rcases Option.bind_eq_some.mp h1 with ⟨dr1, hd1, hk1⟩
  rcases Option.bind_eq_some.mp h2 with ⟨dr2, hd2, hk2⟩
  rw [hd1] at hd2
  rw [Option.some_inj.mp hd2] at hk1
  obtain ⟨d, rd⟩ := dr2
  simp only at hk1 hk2
  rcases Option.bind_eq_some.mp hk1 with ⟨rw1, hw1, hkB1⟩
  rcases Option.bind_eq_some.mp hk2 with ⟨rw2, hw2, hkB2⟩
  rw [hw1] at hw2
  rw [Option.some_inj.mp hw2] at hkB1
  rcases Option.bind_eq_some.mp hkB1 with ⟨nr1, hn1, hkC1⟩
  rcases Option.bind_eq_some.mp hkB2 with ⟨nr2, hn2, hkC2⟩
  obtain ⟨m1, rn1⟩ := nr1
  obtain ⟨m2, rn2⟩ := nr2
  simp only at hkC1 hkC2
  rcases Option.bind_eq_some.mp hkC1 with ⟨rv1, hv1, hkD1⟩
  rcases Option.bind_eq_some.mp hkC2 with ⟨rv2, hv2, hkD2⟩
  have hfw1 : ∃ c rest, rn1 = c :: rest ∧ isWsp c = true := by
    rcases parseWsp_eq_some hv1 with ⟨c, rest, hc, hcw, -⟩
    exact ⟨c, rest, hc, hcw⟩
  have hfw2 : ∃ c rest, rn2 = c :: rest ∧ isWsp c = true := by
    rcases parseWsp_eq_some hv2 with ⟨c, rest, hc, hcw, -⟩
    exact ⟨c, rest, hc, hcw⟩
  rcases parseName_agree ht1 ht2 hx hn1 hn2 hfw1 hfw2 with ⟨hm, hr⟩
  subst hm
  subst hr
  rw [hv1] at hv2
  rw [Option.some_inj.mp hv2] at hkD1
  rw [hkD1] at hkD2
  exact Option.some_inj.mp hkD2

theorem stN_stC_absurd {t1 t2 : MonthTable} {s : List Char} {r1 r2 : SField}
    (ht1 : tableOK t1) (ht2 : tableOK t2) (hx : tablesCross t1 t2)
    (h1 : stMDName t1 s = some r1) (h2 : stMDCommaY t2 s = some r2) :
    False := by
  rcases stMDName_inv h1 with ⟨m1, d1, hp1⟩
  rcases stMDCommaY_inv h2 with ⟨m2, d2, t3, hp2⟩
  rcases pMD_agree ht1 ht2 hx hp1 hp2 with ⟨-, -, hr⟩
  cases hr

theorem stN_stS_absurd {t1 t2 : MonthTable} {s : List Char} {r1 r2 : SField}
    (ht1 : tableOK t1) (ht2 : tableOK t2) (hx : tablesCross t1 t2)
    (h1 : stMDName t1 s = some r1) (h2 : stMDSpaceY t2 s = some r2) :
    False := by
  rcases stMDName_inv h1 with ⟨m1, d1, hp1⟩
  rcases stMDSpaceY_inv h2 with ⟨m2, d2, c, t3, hp2, -⟩
  rcases pMD_agree ht1 ht2 hx hp1 hp2 with ⟨-, -, hr⟩
  cases hr

theorem stC_stS_absurd {t1 t2 : MonthTable} {s : List Char} {r1 r2 : SField}
    (ht1 : tableOK t1) (ht2 : tableOK t2) (hx : tablesCross t1 t2)
    (h1 : stMDCommaY t1 s = some r1) (h2 : stMDSpaceY t2 s = some r2) :
    False := by
  rcases stMDCommaY_inv h1 with ⟨m1, d1, t3, hp1⟩
  rcases stMDSpaceY_inv h2 with ⟨m2, d2, c, t4, hp2, hcw⟩
  rcases pMD_agree ht1 ht2 hx hp1 hp2 with ⟨-, -, hr⟩
  rw [List.cons.injEq] at hr
  rw [← hr.1] at hcw
  cases hcw

theorem head_conflict {s : List Char}
    (h1 : ∃ c rest, s = c :: rest ∧ isDigitC c = false)
    (h2 : ∃ c rest, s = c :: rest ∧ isDigitC c = true) : False := by
  rcases h1 with ⟨c, r, rfl, hc⟩
  rcases h2 with ⟨c', r', heq, hc'⟩
  rw [List.cons.injEq] at heq
  rw [← heq.1] at hc'
  rw [hc] at hc'
  cases hc'

theorem stN_head {t : MonthTable} {s : List Char} {r : SField}
    (ht : tableOK t) (h : stMDName t s = some r) :
    ∃ c rest, s = c :: rest ∧ isDigitC c = false := by
  rcases stMDName_inv h with ⟨m, d, hp⟩
  exact pMD_head ht hp

theorem stC_head {t : MonthTable} {s : List Char} {r : SField}
    (ht : tableOK t) (h : stMDCommaY t s = some r) :
    ∃ c rest, s = c :: rest ∧ isDigitC c = false := by
  rcases stMDCommaY_inv h with ⟨m, d, t2, hp⟩
  exact pMD_head ht hp

theorem stS_head {t : MonthTable} {s : List Char} {r : SField}
    (ht : tableOK t) (h : stMDSpaceY t s = some r) :
    ∃ c rest, s = c :: rest ∧ isDigitC c = false := by
  rcases stMDSpaceY_inv h with ⟨m, d, c, t2, hp, -⟩
  exact pMD_head ht hp

theorem stIso_head {s : List Char} {r : SField} (h : stIso s = some r) :
    ∃ c rest, s = c :: rest ∧ isDigitC c = true := by
  rcases stIso_inv h with ⟨c1, c2, c3, c4, t, hs, h1, -, -, -⟩
  exact ⟨c1, _, hs, h1⟩

theorem stSlash_head {s : List Char} {r : SField} (h : stSlash s = some r) :
    ∃ c rest, s = c :: rest ∧ isDigitC c = true := by
  rcases stSlash_inv h with ⟨c1, t, hs, h1⟩ | ⟨c1, c2, t, hs, h1, -⟩
  · exact ⟨c1, _, hs, h1⟩
  · exact ⟨c1, _, hs, h1⟩

theorem stDMY_head {t : MonthTable} {s : List Char} {r : SField}
    (h : stDMY t s = some r) :
    ∃ c rest, s = c :: rest ∧ isDigitC c = true := by
  rcases stDMY_inv h with ⟨c1, c, t2, hs, h1, -⟩ | ⟨c1, c2, c, t2, hs, h1, -, -⟩
  · exact ⟨c1, _, hs, h1⟩
  · exact ⟨c1, _, hs, h1⟩

theorem iso_slash_absurd {s : List Char} {r1 r2 : SField}
    (h1 : stIso s = some r1) (h2 : stSlash s = some r2) : False := by
  rcases stIso_inv h1 with ⟨c1, c2, c3, c4, t, hs, hd1, hd2, hd3, hd4⟩
  rcases stSlash_inv h2 with ⟨e1, t2, hs2, he⟩ | ⟨e1, e2, t2, hs2, he1, he2⟩
  · rw [hs] at hs2
    simp only [List.cons.injEq] at hs2
    rw [hs2.2.1] at hd2
    cases hd2
  · rw [hs] at hs2
    simp only [List.cons.injEq] at hs2
    rw [hs2.2.2.1] at hd3
    cases hd3

theorem iso_dmy_absurd {t : MonthTable} {s : List Char} {r1 r2 : SField}
    (h1 : stIso s = some r1) (h2 : stDMY t s = some r2) : False := by
  rcases stIso_inv h1 with ⟨c1, c2, c3, c4, tl, hs, hd1, hd2, hd3, hd4⟩
  rcases stDMY_inv h2 with ⟨e1, c, t2, hs2, he1, hcw⟩ |
    ⟨e1, e2, c, t2, hs2, he1, he2, hcw⟩
  · rw [hs] at hs2
    simp only [List.cons.injEq] at hs2
    rw [← hs2.2.1] at hcw
    rw [wsp_not_digit hcw] at hd2
    cases hd2
  · rw [hs] at hs2
    simp only [List.cons.injEq] at hs2
    rw [← hs2.2.2.1] at hcw
    rw [wsp_not_digit hcw] at hd3
    cases hd3

theorem slash_dmy_absurd {t : MonthTable} {s : List Char} {r1 r2 : SField}
    (h1 : stSlash s = some r1) (h2 : stDMY t s = some r2) : False := by
  rcases stSlash_inv h1 with ⟨c1, t1, hs1, hc1⟩ | ⟨c1, c2, t1, hs1, hc1, hc2⟩
  · rcases stDMY_inv h2 with ⟨e1, c, t2, hs2, he1, hcw⟩ |
      ⟨e1, e2, c, t2, hs2, he1, he2, hcw⟩
    · rw [hs1] at hs2
      simp only [List.cons.injEq] at hs2
      rw [← hs2.2.1] at hcw
      cases hcw
    · rw [hs1] at hs2
      simp only [List.cons.injEq] at hs2
      rw [← hs2.2.1] at he2
      cases he2
  · rcases stDMY_inv h2 with ⟨e1, c, t2, hs2, he1, hcw⟩ |
      ⟨e1, e2, c, t2, hs2, he1, he2, hcw⟩
    · rw [hs1] at hs2
      simp only [List.cons.injEq] at hs2
      rw [← hs2.2.1] at hcw
      rw [wsp_not_digit hcw] at hc2
      cases hc2
    · rw [hs1] at hs2
      simp only [List.cons.injEq] at hs2
      rw [← hs2.2.2.1] at hcw
      cases hcw

/-- Any two of the ten formats that both match a string extract the same
fields (month, day, and optional year). -/
theorem strptimeF_agree {f1 f2 : Fmt} {s : List Char} {r1 r2 : SField}
    (h1 : strptimeF f1 s = some r1) (h2 : strptimeF f2 s = some r2) :
    r1 = r2 := by
  have hA := monthsAbbr_ok
  have hF := monthsFull_ok
  obtain ⟨hxAA, hxAF, hxFA, hxFF⟩ := tablesCross_all
  cases f1 <;> cases f2 <;> simp only [strptimeF] at h1 h2
  · rw [h1] at h2; exact Option.some_inj.mp h2
  · exact stBind_agree hA hF hxAF h1 h2
  · exact (stN_stC_absurd hA hA hxAA h1 h2).elim
  · exact (stN_stC_absurd hA hF hxAF h1 h2).elim
  · exact (head_conflict (stN_head hA h1) (stIso_head h2)).elim
  · exact (head_conflict (stN_head hA h1) (stSlash_head h2)).elim
  · exact (head_conflict (stN_head hA h1) (stDMY_head h2)).elim
  · exact (head_conflict (stN_head hA h1) (stDMY_head h2)).elim
  · exact (stN_stS_absurd hA hA hxAA h1 h2).elim
  · exact (stN_stS_absurd hA hF hxAF h1 h2).elim
  · exact stBind_agree hF hA hxFA h1 h2
  · rw [h1] at h2; exact Option.some_inj.mp h2
  · exact (stN_stC_absurd hF hA hxFA h1 h2).elim
  · exact (stN_stC_absurd hF hF hxFF h1 h2).elim
  · exact (head_conflict (stN_head hF h1) (stIso_head h2)).elim
  · exact (head_conflict (stN_head hF h1) (stSlash_head h2)).elim
  · exact (head_conflict (stN_head hF h1) (stDMY_head h2)).elim
  · exact (head_conflict (stN_head hF h1) (stDMY_head h2)).elim
  · exact (stN_stS_absurd hF hA hxFA h1 h2).elim
  · exact (stN_stS_absurd hF hF hxFF h1 h2).elim
  · exact (stN_stC_absurd hA hA hxAA h2 h1).elim
  · exact (stN_stC_absurd hF hA hxFA h2 h1).elim
  · rw [h1] at h2; exact Option.some_inj.mp h2
  · exact stBind_agree hA hF hxAF h1 h2
  · exact (head_conflict (stC_head hA h1) (stIso_head h2)).elim
  · exact (head_conflict (stC_head hA h1) (stSlash_head h2)).elim
  · exact (head_conflict (stC_head hA h1) (stDMY_head h2)).elim
  · exact (head_conflict (stC_head hA h1) (stDMY_head h2)).elim
  · exact (stC_stS_absurd hA hA hxAA h1 h2).elim
  · exact (stC_stS_absurd hA hF hxAF h1 h2).elim
  · exact (stN_stC_absurd hA hF hxAF h2 h1).elim
  · exact (stN_stC_absurd hF hF hxFF h2 h1).elim
  · exact stBind_agree hF hA hxFA h1 h2
  · rw [h1] at h2; exact Option.some_inj.mp h2
  · exact (head_conflict (stC_head hF h1) (stIso_head h2)).elim
  · exact (head_conflict (stC_head hF h1) (stSlash_head h2)).elim
  · exact (head_conflict (stC_head hF h1) (stDMY_head h2)).elim
  · exact (head_conflict (stC_head hF h1) (stDMY_head h2)).elim
  · exact (stC_stS_absurd hF hA hxFA h1 h2).elim
  · exact (stC_stS_absurd hF hF hxFF h1 h2).elim
  · exact (head_conflict (stN_head hA h2) (stIso_head h1)).elim
  · exact (head_conflict (stN_head hF h2) (stIso_head h1)).elim
  · exact (head_conflict (stC_head hA h2) (stIso_head h1)).elim
  · exact (head_conflict (stC_head hF h2) (stIso_head h1)).elim
  · rw [h1] at h2; exact Option.some_inj.mp h2
  · exact (iso_slash_absurd h1 h2).elim
  · exact (iso_dmy_absurd h1 h2).elim
  · exact (iso_dmy_absurd h1 h2).elim
  · exact (head_conflict (stS_head hA h2) (stIso_head h1)).elim
  · exact (head_conflict (stS_head hF h2) (stIso_head h1)).elim
  · exact (head_conflict (stN_head hA h2) (stSlash_head h1)).elim
  · exact (head_conflict (stN_head hF h2) (stSlash_head h1)).elim
  · exact (head_conflict (stC_head hA h2) (stSlash_head h1)).elim
  · exact (head_conflict (stC_head hF h2) (stSlash_head h1)).elim
  · exact (iso_slash_absurd h2 h1).elim
  · rw [h1] at h2; exact Option.some_inj.mp h2
  · exact (slash_dmy_absurd h1 h2).elim
  · exact (slash_dmy_absurd h1 h2).elim
  · exact (head_conflict (stS_head hA h2) (stSlash_head h1)).elim
  · exact (head_conflict (stS_head hF h2) (stSlash_head h1)).elim
  · exact (head_conflict (stN_head hA h2) (stDMY_head h1)).elim
  · exact (head_conflict (stN_head hF h2) (stDMY_head h1)).elim
  · exact (head_conflict (stC_head hA h2) (stDMY_head h1)).elim
  · exact (head_conflict (stC_head hF h2) (stDMY_head h1)).elim
  · exact (iso_dmy_absurd h2 h1).elim
  · exact (slash_dmy_absurd h2 h1).elim
  · rw [h1] at h2; exact Option.some_inj.mp h2
  · exact stDMY_agree hA hF hxAF h1 h2
  · exact (head_conflict (stS_head hA h2) (stDMY_head h1)).elim
  · exact (head_conflict (stS_head hF h2) (stDMY_head h1)).elim
  · exact (head_conflict (stN_head hA h2) (stDMY_head h1)).elim
  · exact (head_conflict (stN_head hF h2) (stDMY_head h1)).elim
  · exact (head_conflict (stC_head hA h2) (stDMY_head h1)).elim
  · exact (head_conflict (stC_head hF h2) (stDMY_head h1)).elim
  · exact (iso_dmy_absurd h2 h1).elim
  · exact (slash_dmy_absurd h2 h1).elim
  · exact stDMY_agree hF hA hxFA h1 h2
  · rw [h1] at h2; exact Option.some_inj.mp h2
  · exact (head_conflict (stS_head hA h2) (stDMY_head h1)).elim
  · exact (head_conflict (stS_head hF h2) (stDMY_head h1)).elim
  · exact (stN_stS_absurd hA hA hxAA h2 h1).elim
  · exact (stN_stS_absurd hF hA hxFA h2 h1).elim
  · exact (stC_stS_absurd hA hA hxAA h2 h1).elim
  · exact (stC_stS_absurd hF hA hxFA h2 h1).elim
  · exact (head_conflict (stS_head hA h1) (stIso_head h2)).elim
  · exact (head_conflict (stS_head hA h1) (stSlash_head h2)).elim
  · exact (head_conflict (stS_head hA h1) (stDMY_head h2)).elim
  · exact (head_conflict (stS_head hA h1) (stDMY_head h2)).elim
  · rw [h1] at h2; exact Option.some_inj.mp h2
  · exact stBind_agree hA hF hxAF h1 h2
  · exact (stN_stS_absurd hA hF hxAF h2 h1).elim
  · exact (stN_stS_absurd hF hF hxFF h2 h1).elim
  · exact (stC_stS_absurd hA hF hxAF h2 h1).elim
  · exact (stC_stS_absurd hF hF hxFF h2 h1).elim
  · exact (head_conflict (stS_head hF h1) (stIso_head h2)).elim
  · exact (head_conflict (stS_head hF h1) (stSlash_head h2)).elim
  · exact (head_conflict (stS_head hF h1) (stDMY_head h2)).elim
  · exact (head_conflict (stS_head hF h1) (stDMY_head h2)).elim
  · exact stBind_agree hF hA hxFA h1 h2
  · rw [h1] at h2; exact Option.some_inj.mp h2

theorem mkValid_year {m d : Nat} {y : Option Nat} {r : SField}
    (h : mkValid m d y = some r) : r.year = y := by
  unfold mkValid at h
  split at h
  · rw [← Option.some_inj.mp h]
  · cases h

/-- A yearless format leaves the year field empty. -/
theorem strptimeF_year_none {f : Fmt} (hf : hasYearFmt f = false)
    {s : List Char} {r : SField} (h : strptimeF f s = some r) :
    r.year = none := by
  cases f
  case bd | bigBd =>
    simp only [strptimeF, stMDName] at h
    rcases Option.bind_eq_some.mp h with ⟨⟨m, d, rr⟩, -, hk⟩
    simp only at hk
    split at hk
    · exact mkValid_year hk
    · cases hk
  all_goals simp [hasYearFmt] at hf

/-- A format containing `%Y` always fills the year field. -/
theorem strptimeF_year_some {f : Fmt} (hf : hasYearFmt f = true)
    {s : List Char} {r : SField} (h : strptimeF f s = some r) :
    ∃ y, r.year = some y := by
  cases f
  case bd => simp [hasYearFmt] at hf
  case bigBd => simp [hasYearFmt] at hf
  case bdY | bigBdY =>
    simp only [strptimeF, stMDCommaY] at h
    rcases Option.bind_eq_some.mp h with ⟨⟨m, d, rr⟩, -, hk⟩
    simp only at hk
    rcases Option.bind_eq_some.mp hk with ⟨r2, -, hk2⟩
    rcases Option.bind_eq_some.mp hk2 with ⟨r3, -, hk3⟩
    rcases Option.bind_eq_some.mp hk3 with ⟨⟨y, r4⟩, -, hk4⟩
    simp only at hk4
    split at hk4
    · exact ⟨y, mkValid_year hk4⟩
    · cases hk4
  case bdY2 | bigBdY2 =>
    simp only [strptimeF, stMDSpaceY] at h
    rcases Option.bind_eq_some.mp h with ⟨⟨m, d, rr⟩, -, hk⟩
    simp only at hk
    rcases Option.bind_eq_some.mp hk with ⟨r2, -, hk2⟩
    rcases Option.bind_eq_some.mp hk2 with ⟨⟨y, r3⟩, -, hk3⟩
    simp only at hk3
    split at hk3
    · exact ⟨y, mkValid_year hk3⟩
    · cases hk3
  case iso =>
    simp only [strptimeF, stIso] at h
    rcases Option.bind_eq_some.mp h with ⟨⟨y, r1⟩, -, hk⟩
    simp only at hk
    rcases Option.bind_eq_some.mp hk with ⟨r2, -, hk2⟩
    rcases Option.bind_eq_some.mp hk2 with ⟨⟨m, r3⟩, -, hk3⟩
    simp only at hk3
    rcases Option.bind_eq_some.mp hk3 with ⟨r4, -, hk4⟩
    rcases Option.bind_eq_some.mp hk4 with ⟨⟨d, r5⟩, -, hk5⟩
    simp only at hk5
    split at hk5
    · exact ⟨y, mkValid_year hk5⟩
    · cases hk5
  case mdy =>
    simp only [strptimeF, stSlash] at h
    rcases Option.bind_eq_some.mp h with ⟨⟨m, r1⟩, -, hk⟩
    simp only at hk
    rcases Option.bind_eq_some.mp hk with ⟨r2, -, hk2⟩
    rcases Option.bind_eq_some.mp hk2 with ⟨⟨d, r3⟩, -, hk3⟩
    simp only at hk3
    rcases Option.bind_eq_some.mp hk3 with ⟨r4, -, hk4⟩
    rcases Option.bind_eq_some.mp hk4 with ⟨⟨y, r5⟩, -, hk5⟩
    simp only at hk5
    split at hk5
    · exact ⟨y, mkValid_year hk5⟩
    · cases hk5
  case dbY | dBigBY =>
    simp only [strptimeF, stDMY] at h
    rcases Option.bind_eq_some.mp h with ⟨⟨d, r1⟩, -, hk⟩
    simp only at hk
    rcases Option.bind_eq_some.mp hk with ⟨r2, -, hk2⟩
    rcases Option.bind_eq_some.mp hk2 with ⟨⟨m, r3⟩, -, hk3⟩
    simp only at hk3
    rcases Option.bind_eq_some.mp hk3 with ⟨r4, -, hk4⟩
    rcases Option.bind_eq_some.mp hk4 with ⟨⟨y, r5⟩, -, hk5⟩
    simp only at hk5
    split at hk5
    · exact ⟨y, mkValid_year hk5⟩
    · cases hk5

theorem strptimeF_nil (f : Fmt) : strptimeF f [] = none := by
  cases f <;> decide

/-- Trying the formats in order returns the (agreed) fields of any matching
format, with the current year substituted exactly when the matched format
lacks `%Y`. -/
theorem tryFormats_match (cy : Nat) :
    ∀ (fs : List Fmt) (f : Fmt) (s : List Char) (r : SField),
      f ∈ fs → strptimeF f s = some r →
      tryFormats cy fs s = some ⟨r.year.getD cy, r.month, r.day⟩ := by
  intro fs
  induction fs with
  | nil => intro f s r hf _; cases hf
  | cons g rest ih =>
    intro f s r hf h
    simp only [tryFormats]
    cases hg : strptimeF g s with
    | some r0 =>
      have hr : r0 = r := strptimeF_agree hg h
      subst hr
      simp only [Option.some_inj]
      cases hy : hasYearFmt g
      · rw [strptimeF_year_none hy hg]
        simp
      · rcases strptimeF_year_some hy hg with ⟨y, hy'⟩
        rw [hy']
        simp
    | none =>
      rcases List.mem_cons.mp hf with rfl | hf'
      · rw [h] at hg
        cases hg
      · exact ih f s r hf' h

/-- C3: for every date text matched by one of the ten supported formats,
`parse_date` returns a (UTC) date whose year, month and day are exactly the
fields written in the input, with the current year substituted when the
matched format has no year field. -/
theorem c3_parse_date_matches_format
    (cy : Nat) (t : String) (f : Fmt) (r : SField)
    (hf : f ∈ formats) (h : strptimeF f (pyStrip t.toList) = some r) :
    parse_date cy (some t) = some ⟨r.year.getD cy, r.month, r.day⟩ := by
  simp only [parse_date]
  split
  · rename_i ht
    subst ht
    rw [show pyStrip "".toList = [] from rfl, strptimeF_nil f] at h
    cases h
  · exact tryFormats_match cy formats f _ r hf h

/-- Witness for C3: "Nov 7, 2025" matches the third format and parses to
2025-11-07 regardless of the current year. -/
theorem c3_parse_date_matches_format_witness :
    Fmt.bdY ∈ formats ∧
    strptimeF Fmt.bdY (pyStrip "Nov 7, 2025".toList) =
      some ⟨11, 7, some 2025⟩ ∧
    parse_date 2024 (some "Nov 7, 2025") = some ⟨2025, 11, 7⟩ :=
  ⟨by decide, by decide,
   c3_parse_date_matches_format 2024 "Nov 7, 2025" .bdY ⟨11, 7, some 2025⟩
     (by decide) (by decide)⟩

/-- C5: on that blob both structured-data extractions yield exactly one
article, with link ending in `/foo`, title `Hello World`, and date
2025-01-01 (midnight UTC). -/
theorem c5_structured_extraction_scenario :
    research_extract 2025 c5blob.toList =
      [[("title", .vstr "Hello World"),
        ("link", .vstr "https://www.anthropic.com/research/foo"),
        ("description", .vstr "Hello World"),
        ("date", .vdate ⟨2025, 1, 1⟩),
        ("category", .vstr "Research")]] ∧
    eng_core c5blob.toList =
      some [[("title", .vstr "Hello World"),
        ("link", .vstr "https://www.anthropic.com/engineering/foo"),
        ("description", .vstr "Hello World"),
        ("date", .vdate ⟨2025, 1, 1⟩),
        ("category", .vstr "Engineering")]] ∧
    List.isSuffixOf "/foo".toList
      "https://www.anthropic.com/research/foo".toList = true ∧
    List.isSuffixOf "/foo".toList
      "https://www.anthropic.com/engineering/foo".toList = true := by
  exact ⟨by decide, by decide, by decide, by decide⟩

theorem findScript_none {p : String → Bool} :
    ∀ scripts : List (Option String),
      (∀ s, some s ∈ scripts → s = "" ∨ p s = false) →
      findScript p scripts = none := by
  intro scripts
  induction scripts with
  | nil => intro _; rfl
  | cons o rest ih =>
    intro h
    cases o with
    | none =>
      simp only [findScript]
      exact ih fun s hs => h s (List.mem_cons_of_mem _ hs)
    | some s =>
      simp only [findScript]
      rcases h s (by simp) with hs | hs
      · rw [if_neg (by simp [hs])]
        exact ih fun s' hs' => h s' (List.mem_cons_of_mem _ hs')
      · rw [if_neg (by simp [hs])]
        exact ih fun s' hs' => h s' (List.mem_cons_of_mem _ hs')

/-- C7: when no script string contains the expected anchor (and, for the
DOM scraper, when zero entry nodes match), each parse returns the empty
list — total functions, nothing raised. -/
theorem c7_structural_failure_returns_empty (cy k0 k1 : Nat)
    (scripts : List (Option String))
    (h : ∀ s, some s ∈ scripts → s = "" ∨
      containsSubS "publishedOn" s = false) :
    parse_research_html cy scripts = [] ∧
    parse_engineering_html scripts = some [] ∧
    tm_extract cy k0 k1 [] = [] := by
  refine ⟨?_, ?_, rfl⟩
  · unfold parse_research_html
    rw [findScript_none scripts h]
  · unfold parse_engineering_html
    rw [findScript_none scripts ?_]
    intro s hs
    rcases h s hs with h1 | h1
    · exact Or.inl h1
    · exact Or.inr (by rw [h1]; rfl)

/-- Witness for C7 on a concrete page with one empty and one unrelated
script. -/
theorem c7_structural_failure_returns_empty_witness :
    parse_research_html 2025 [none, some "hello stuff"] = [] ∧
    parse_engineering_html [none, some "hello stuff"] = some [] ∧
    tm_extract 2025 0 0 [] = [] :=
  c7_structural_failure_returns_empty 2025 0 0 [none, some "hello stuff"]
    (by
      intro s hs
      simp only [List.mem_cons, List.not_mem_nil, or_false,
        reduceCtorEq, false_or] at hs
      cases Option.some_inj.mp hs
      exact Or.inr (by decide))

set_option maxRecDepth 20000 in
/-- C8 (refutation as stated): the research structured-data scraper has no
seen-links set; a blob carrying the same record twice yields two articles
with the same link. -/
theorem c8_counterexample_duplicate_links :
    (research_extract 2025 c8blob.toList).map (fun a => pyGet a "link") =
      [some (.vstr "https://www.anthropic.com/research/foo"),
       some (.vstr "https://www.anthropic.com/research/foo")] ∧
    ¬ ((research_extract 2025 c8blob.toList).map
        (fun a => pyGet a "link")).Nodup := by
  exact ⟨by decide, by decide⟩

/-- The link slot of an article built by the thinkingmachines loop. -/
theorem pyGet_link_tm (t l d p au : PyVal) :
    pyGet [("title", t), ("link", l), ("description", d), ("pub_date", p),
      ("author", au)] "link" = some l := rfl

/-- C8 (amended): the thinkingmachines scraper does deduplicate by resolved
URL within one run — its output never contains two records with the same
link. -/
theorem c8_tm_dedup (cy k0 k1 : Nat) (items : List TMItem) :
    ((tm_extract cy k0 k1 items).map (fun a => pyGet a "link")).Nodup := by
  suffices h : ∀ (its : List TMItem) (seen : List String),
      ((tmGo cy k0 k1 its seen).map (fun a => pyGet a "link")).Nodup ∧
      ∀ a ∈ tmGo cy k0 k1 its seen, ∃ l, pyGet a "link" = some (.vstr l) ∧
        l ∉ seen by
    exact (h items []).1
  intro its
  induction its with
  | nil => intro seen; exact ⟨List.nodup_nil, by simp [tmGo]⟩
  | cons item rest ih =>
    intro seen
    by_cases h1 : item.href = ""
    · simp only [tmGo, if_pos h1]
      exact ih seen
    · simp only [tmGo, if_neg h1]
      set L := if pyStartsWith item.href "/" then
          "https://thinkingmachines.ai" ++ item.href else item.href with hL
      by_cases h2 : L ∈ seen
      · rw [if_pos h2]
        exact ih seen
      · rw [if_neg h2]
        split
        · constructor
          · simp only [List.map_cons, List.nodup_cons]
            refine ⟨?_, (ih _).1⟩
            intro hmem
            rcases List.mem_map.mp hmem with ⟨a, ha, hl⟩
            rcases (ih _).2 a ha with ⟨l, hl', hnotin⟩
            rw [hl', pyGet_link_tm] at hl
            rw [Option.some_inj, PyVal.vstr.injEq] at hl
            exact hnotin (by rw [hl]; exact List.mem_cons_self _ _)
          · intro a ha
            rcases List.mem_cons.mp ha with rfl | ha'
            · exact ⟨L, pyGet_link_tm _ _ _ _ _, h2⟩
            · rcases (ih _).2 a ha' with ⟨l, hl', hnotin⟩
              exact ⟨l, hl', fun hmem => hnotin (List.mem_cons_of_mem _ hmem)⟩
        · refine ⟨(ih _).1, ?_⟩
          intro a ha
          rcases (ih _).2 a ha with ⟨l, hl', hnotin⟩
          exact ⟨l, hl', fun hmem => hnotin (List.mem_cons_of_mem _ hmem)⟩

set_option maxRecDepth 20000 in
/-- C9 (refutation as stated): the research scraper's final sort is
commented out, so it returns articles in discovery order; on this input the
dates come out descending although the site's configured direction
(`sort_reverse: False`) is ascending. -/
theorem c9_counterexample_research_unsorted :
    research_feed_config.sort_reverse = some false ∧
    (research_extract 2025 c9blob.toList).map (fun a => pyGet a "date") =
      [some (.vdate ⟨2025, 5, 5⟩), some (.vdate ⟨2024, 1, 1⟩)] ∧
    ¬ (research_extract 2025 c9blob.toList).Pairwise
        (fun a b => pyCmpLe (keyAt "date" a) (keyAt "date" b) = true) :=
  ⟨rfl, by decide, by decide⟩

/-- C9 (amended): the engineering scraper alone sorts as its final step,
hard-coded descending (`reverse=True`); whenever it returns, its output is
sorted by date descending. -/
theorem c9_eng_core_sorted_desc (script : List Char) (out : List Article)
    (h : eng_core script = some out) :
    out.Pairwise (fun a b => pyCmpLe (keyAt "date" b) (keyAt "date" a) = true) := by
  unfold eng_core pySortByKey at h
  split at h
  · cases h
  · split at h
    · rename_i hshort
      rw [← Option.some_inj.mp h]
      exact pairwise_of_short hshort
    · split at h
      · rename_i hom
        have hp := @pairwise_insort (sortLe "date" true)
          (engBuild script (findallRecords script))
          (sortLe_total_hom (Bool.or_eq_true _ _ |>.mp hom))
          (sortLe_trans_hom (Bool.or_eq_true _ _ |>.mp hom))
        rw [← Option.some_inj.mp h]
        refine hp.imp ?_
        intro a b hab
        simpa [sortLe] using hab
      · cases h

set_option maxRecDepth 20000 in
/-- Witness for the amended C9 at a concrete blob: the two engineering
articles come out date-descending. -/
theorem c9_eng_core_sorted_desc_witness :
    ([[("title", PyVal.vstr "Alpha Post"),
       ("link", PyVal.vstr "https://www.anthropic.com/engineering/aaa"),
       ("description", PyVal.vstr "Alpha Post"),
       ("date", PyVal.vdate ⟨2025, 5, 5⟩),
       ("category", PyVal.vstr "Engineering")],
      [("title", PyVal.vstr "Beta Post"),
       ("link", PyVal.vstr "https://www.anthropic.com/engineering/bbb"),
       ("description", PyVal.vstr "Beta Post"),
       ("date", PyVal.vdate ⟨2024, 1, 1⟩),
       ("category", PyVal.vstr "Engineering")]] : List Article).Pairwise
      (fun a b => pyCmpLe (keyAt "date" b) (keyAt "date" a) = true) :=
  c9_eng_core_sorted_desc c9blob.toList _ (by decide)
